import Mathlib

/-!
# KMZ photo extractor: a shallow embedding of `src/js/kmzExtractor.js`

JavaScript strings are modelled as lists of characters.  The collaborators of
the extractor (the zip reader, the DOM parser, Unicode lower-casing) are not
part of the repository; they appear as data (`ZipEntry`, `Document`) or as
fields of `Host`.  The JSZip instance that the extractor keeps across runs is
part of its state (`KMZExtractor.jszip`, `loadAsync`).
-/

set_option autoImplicit false

namespace KMZ

/-- A JavaScript string. -/
abbrev Str := List Char

/-! ## String primitives -/

/-- `s.startsWith(p)`. -/
def startsWith (s p : Str) : Bool := p.isPrefixOf s

/-- `s.endsWith(p)`. -/
def endsWith (s p : Str) : Bool := p.isSuffixOf s

/-- `s.includes(p)`: `p` occurs in `s` as a contiguous substring. -/
def includes : Str → Str → Bool
  | [], p => p.isEmpty
  | c :: s, p => p.isPrefixOf (c :: s) || includes s p

/-- `s.split(sep)` for a one-character separator: the segments between the
occurrences of `sep`, never an empty array. -/
def split (sep : Char) : Str → List Str
  | [] => [[]]
  | c :: s =>
    if c = sep then [] :: split sep s
    else
      match split sep s with
      | [] => [[c]]
      | seg :: segs => (c :: seg) :: segs

/-- `arr[0]` on an array of strings produced by `split`. -/
def first (segs : List Str) : Str := segs.headD []

/-- `arr.pop()` on an array of strings produced by `split`. -/
def pop (segs : List Str) : Str := segs.getLastD []

/-- `s.substring(n)`. -/
def substring (s : Str) (n : Nat) : Str := s.drop n

/-- The truthiness of a string: only the empty string is falsy. -/
def truthy (s : Str) : Bool := !s.isEmpty

/-- `a || b` on strings. -/
def orElse (a b : Str) : Str := if truthy a then a else b

/-- WhiteSpace and LineTerminator code points of ECMAScript, the ones
`String.prototype.trim` removes. -/
def isTrimChar (c : Char) : Bool :=
  let n := c.toNat
  n = 0x09 || n = 0x0A || n = 0x0B || n = 0x0C || n = 0x0D || n = 0x20 || n = 0xA0
    || n = 0x1680 || (0x2000 ≤ n && n ≤ 0x200A) || n = 0x2028 || n = 0x2029
    || n = 0x202F || n = 0x205F || n = 0x3000 || n = 0xFEFF

/-- `s.trim()`. -/
def trim (s : Str) : Str :=
  ((s.dropWhile isTrimChar).reverse.dropWhile isTrimChar).reverse

/-- `String(n)` for a non-negative integer. -/
def numToStr (n : Nat) : Str := Nat.toDigits 10 n

/-! ## `normalizeFilePath` (kmzExtractor.js 227-240) -/

def normalizeFilePath (path : Str) : Str :=
  let normalizedPath := first (split '?' path)
  let normalizedPath := first (split '#' normalizedPath)
  if startsWith normalizedPath "/".toList then substring normalizedPath 1
  else normalizedPath

/-! ## `generateFileNameFromPlacemark` (kmzExtractor.js 359-374) -/

/-- The character class `[<>:"/\\|*]`. -/
def isUnsafeChar (c : Char) : Bool :=
  c = '<' || c = '>' || c = ':' || c = '"' || c = '/' || c = '\\' || c = '|' || c = '*'

/-- `s.replace(/[<>:"/\\|*]/g, "-?")`: scanning left to right, every character
of the class is replaced by the two characters `-?`. -/
def replaceUnsafe : Str → Str
  | [] => []
  | c :: s => if isUnsafeChar c then '-' :: '?' :: replaceUnsafe s else c :: replaceUnsafe s

def generateFileNameFromPlacemark (placemarkName extension : Str) (keepStructure : Bool) : Str :=
  let cleanName := replaceUnsafe placemarkName
  let cleanName :=
    if !keepStructure && startsWith cleanName "?-".toList then substring cleanName 2
    else cleanName
  let extension :=
    if !startsWith extension ".".toList then ".".toList ++ extension else extension
  cleanName ++ extension

/-! ## Regular expressions

The three regular expressions of the source are sequences of one-character
tests, each taken once or under a greedy `+` or `*`, possibly closed by `$`.
`matchHere` is the backtracking matcher of ECMAScript restricted to such
sequences: a greedy quantifier first takes the longest run and gives
characters back one at a time until the rest of the pattern matches. -/

inductive Node where
  /-- One character satisfying the test. -/
  | one (test : Char → Bool)
  /-- Greedy `+` over a one-character test. -/
  | plus (test : Char → Bool)
  /-- Greedy `*` over a one-character test. -/
  | star (test : Char → Bool)
  /-- The assertion `$` (no `m` flag): end of input. -/
  | eos

/-- Backtracking of a greedy quantifier: try to take `n` characters, then
`n - 1`, ... down to `min`; `cont` matches the rest of the pattern. -/
def greedy (cont : Str → Option (List Str)) (min : Nat) : Nat → Str → Option (List Str)
  | 0, s => if min = 0 then (cont s).map (fun r => [] :: r) else none
  | n + 1, s =>
    match cont (s.drop (n + 1)) with
    | some r => some (s.take (n + 1) :: r)
    | none => greedy cont min n s

/-- Match the pattern at the start of `s`; the result lists the text matched
by each node of the pattern, in order. -/
def matchHere : List Node → Str → Option (List Str)
  | [], _ => some []
  | Node.one t :: ns, s =>
    match s with
    | c :: s' => if t c then (matchHere ns s').map (fun r => [c] :: r) else none
    | [] => none
  | Node.plus t :: ns, s => greedy (fun s' => matchHere ns s') 1 (s.takeWhile t).length s
  | Node.star t :: ns, s => greedy (fun s' => matchHere ns s') 0 (s.takeWhile t).length s
  | Node.eos :: ns, s => if s.isEmpty then (matchHere ns s).map (fun r => [] :: r) else none

/-- The loop `while ((match = re.exec(s)) !== null)` of a regular expression
with the `g` flag: the successive leftmost matches, each search starting where
the previous match ended.  `skip` counts the characters of the previous match
still to be passed over.  (The patterns of the source never match the empty
string, see `imgMatch_ne_nil` and `wholeMatch_ne_nil`, so the search position
always advances.) -/
def execAll (p : List Node) : Nat → Str → List (List Str)
  | _, [] =>
    match matchHere p [] with
    | some m => [m]
    | none => []
  | 0, c :: s =>
    match matchHere p (c :: s) with
    | some m => m :: execAll p (m.flatten.length - 1) s
    | none => execAll p 0 s
  | k + 1, _ :: s => execAll p k s

/-- A literal pattern character under the `i` flag.  Without the `u` flag
only the ASCII letters are folded onto an ASCII pattern character. -/
def ci (p : Char) : Node := Node.one (fun c => c.toUpper = p.toUpper)

/-- A literal pattern character, case-sensitive. -/
def lit (p : Char) : Node := Node.one (fun c => c = p)

/-- The class `[^>]`. -/
def notGt (c : Char) : Bool := c != '>'

/-- The class `["']`. -/
def isQuote (c : Char) : Bool := c = '"' || c = '\''

/-- The class `[^"']`. -/
def notQuote (c : Char) : Bool := !isQuote c

/-- The class `[^;]`. -/
def notSemi (c : Char) : Bool := c != ';'

/-- The class `[A-Za-z-+\/]`. -/
def isMimeChar (c : Char) : Bool :=
  ('A' ≤ c && c ≤ 'Z') || ('a' ≤ c && c ≤ 'z') || c = '-' || c = '+' || c = '/'

/-- The atom `.` (no `s` flag): any character but a line terminator. -/
def notLineTerminator (c : Char) : Bool :=
  !(c.toNat = 0x0A || c.toNat = 0x0D || c.toNat = 0x2028 || c.toNat = 0x2029)

/-- The part of `/<img[^>]+src=["']([^"']+)["'][^>]*>/gi` before the group. -/
def imgRegexPre : List Node :=
  "<img".toList.map ci ++ [Node.plus notGt] ++ "src=".toList.map ci ++ [Node.one isQuote]

/-- `/<img[^>]+src=["']([^"']+)["'][^>]*>/gi`. -/
def imgRegex : List Node :=
  imgRegexPre ++ [Node.plus notQuote] ++ [Node.one isQuote, Node.star notGt, ci '>']

/-- The part of `/data:image\/[^;]+;base64,([^"']+)/gi` before the group. -/
def base64RegexPre : List Node :=
  "data:image/".toList.map ci ++ [Node.plus notSemi] ++ ";base64,".toList.map ci

/-- `/data:image\/[^;]+;base64,([^"']+)/gi`. -/
def base64Regex : List Node := base64RegexPre ++ [Node.plus notQuote]

/-- `/^data:([A-Za-z-+\/]+);base64,(.+)$/`; the assertion `^` is rendered by
matching at the start of the input only (`matchDataUrl`). -/
def dataUrlRegex : List Node :=
  "data:".toList.map lit ++ [Node.plus isMimeChar] ++ ";base64,".toList.map lit
    ++ [Node.plus notLineTerminator] ++ [Node.eos]

/-- `dataUrl.match(/^data:([A-Za-z-+\/]+);base64,(.+)$/)`: `null`, or the
array of the whole match and the two groups. -/
def matchDataUrl (dataUrl : Str) : Option (List Str) :=
  (matchHere dataUrlRegex dataUrl).map (fun m => [m.flatten, m.getD 5 [], m.getD 14 []])

/-! ## `extractImageReferencesFromHTML` (kmzExtractor.js 196-220) -/

/-- The first loop: `match[1]` of every match of the `img` pattern, pushed
when truthy. -/
def imgReferences (html : Str) : List Str :=
  (execAll imgRegex 0 html).filterMap
    (fun m => if truthy (m.getD imgRegexPre.length []) then some (m.getD imgRegexPre.length []) else none)

/-- The second loop: `match[0]` of every match of the base64 pattern, pushed
when truthy. -/
def base64References (html : Str) : List Str :=
  (execAll base64Regex 0 html).filterMap
    (fun m => if truthy m.flatten then some m.flatten else none)

def extractImageReferencesFromHTML (html : Str) : List Str :=
  let references := imgReferences html
  if references.length = 0 then references ++ base64References html
  else references

/-! ## Data model -/

/-- An entry of `zipContent.files`: its key, the `dir` flag, and what
`async("text")` and `async("base64")` resolve to. -/
structure ZipEntry where
  name : Str
  dir : Bool
  text : Str
  base64 : Str
deriving DecidableEq, Repr

/-- An element whose `innerHTML` and `textContent` the extractor reads. -/
structure TextElement where
  innerHTML : Str
  textContent : Str
deriving DecidableEq, Repr

/-- A `Data` element: `getAttribute("name")` and
`getElementsByTagName("value")`. -/
structure DataElement where
  nameAttr : Option Str
  values : List TextElement
deriving DecidableEq, Repr

/-- A `Placemark` element, seen through the queries the extractor makes:
`getElementsByTagName` for `name`, `description` and `ExtendedData`, the
latter given by the `Data` elements below each `ExtendedData` element. -/
structure PlacemarkElement where
  names : List TextElement
  descriptions : List TextElement
  extendedData : List (List DataElement)
deriving DecidableEq, Repr

/-- A parsed KML document: `getElementsByTagName("Placemark")`. -/
structure Document where
  placemarkElements : List PlacemarkElement
deriving DecidableEq, Repr

/-- What the browser provides: `String.prototype.toLowerCase` (Unicode case
mapping) and `DOMParser.parseFromString(text, "application/xml")`. -/
structure Host where
  toLowerCase : Str → Str
  parseFromString : Str → Document

/-- The uploaded file: its `name` and the entries of the archive it holds, in
the order in which JSZip reads them. -/
structure KmzFile where
  name : Str
  files : List ZipEntry
deriving DecidableEq, Repr

structure Options where
  keepStructure : Bool
  extractAllImages : Bool
deriving DecidableEq, Repr

inductive Status where
  | info
  | success
  | warning
  | error
deriving DecidableEq, Repr

structure LogEntry where
  status : Status
  message : Str
deriving DecidableEq, Repr

/-- An element of `this.extractedImages`; `mimeType` is set by
`extractBase64Image`, `originalFile` by `extractFileFromKMZ`. -/
structure Image where
  name : Str
  data : Str
  mimeType : Option Str
  originalFile : Option Str
deriving DecidableEq, Repr

/-- An element of `this.placemarks`. -/
structure Placemark where
  name : Str
  element : PlacemarkElement
deriving DecidableEq, Repr

/-- The mutable fields of a `KMZExtractor` object; `jszip` holds the entries
of `this.jszip.files`, the one JSZip instance made by the constructor, in
`for ... in` order. -/
structure KMZExtractor where
  jszip : List ZipEntry
  kmlContent : Option Document
  placemarks : List Placemark
  extractedImages : List Image
  warnings : List Str
  logs : List LogEntry
deriving DecidableEq, Repr

/-- The state set up by the constructor. -/
def KMZExtractor.new : KMZExtractor :=
  { jszip := [], kmlContent := none, placemarks := [], extractedImages := [], warnings := [],
    logs := [] }

/-- The object returned by `extractImagesFromKMZ`; `outputZip` is the sequence
of `outputZip.file(name, data)` calls made by `createOutputZip`. -/
structure ExtractionResult where
  totalPlacemarks : Nat
  totalPhotos : Nat
  warnings : List Str
  logs : List LogEntry
  outputZip : List (Str × Str)
deriving DecidableEq, Repr

/-- `this.logs.push(...)`. -/
def KMZExtractor.log (self : KMZExtractor) (status : Status) (message : Str) : KMZExtractor :=
  { self with logs := self.logs ++ [({ status := status, message := message } : LogEntry)] }

/-! ## `extractBase64Image` (kmzExtractor.js 248-292) -/

/-- The `if`/`else if` chain choosing the extension from the MIME type. -/
def mimeExtension (mimeType : Str) : Str :=
  if includes mimeType "png".toList then ".png".toList
  else if includes mimeType "gif".toList then ".gif".toList
  else if includes mimeType "jpeg".toList then ".jpg".toList
  else if includes mimeType "webp".toList then ".webp".toList
  else if includes mimeType "bmp".toList then ".bmp".toList
  else ".jpg".toList

def extractBase64Image (self : KMZExtractor) (dataUrl placemarkName : Str)
    (keepStructure : Bool) : KMZExtractor :=
  match matchDataUrl dataUrl with
  | none =>
    self.log Status.warning
      ("Format data URL tidak valid untuk placemark \"".toList ++ placemarkName ++ "\"".toList)
  | some found =>
    if found.length ≠ 3 then
      self.log Status.warning
        ("Format data URL tidak valid untuk placemark \"".toList ++ placemarkName ++ "\"".toList)
    else
      let mimeType := found.getD 1 []
      let base64Data := found.getD 2 []
      let extension := mimeExtension mimeType
      let fileName := generateFileNameFromPlacemark placemarkName extension keepStructure
      let self := { self with extractedImages := self.extractedImages ++
        [({ name := fileName, data := base64Data, mimeType := some mimeType, originalFile := none } : Image)] }
      self.log Status.success
        ("Berhasil mengekstrak gambar base64 dari placemark \"".toList ++ placemarkName
          ++ "\" sebagai \"".toList ++ fileName ++ "\"".toList)

/-! ## `extractFileFromKMZ` (kmzExtractor.js 301-350) -/

/-- `zipContent.files[filePath]`. -/
def lookupFile (files : List ZipEntry) (filePath : Str) : Option ZipEntry :=
  files.find? (fun e => e.name = filePath)

def extractFileFromKMZ (h : Host) (self : KMZExtractor) (zipContent : List ZipEntry)
    (filePath placemarkName : Str) (keepStructure : Bool) : KMZExtractor :=
  match lookupFile zipContent filePath with
  | none =>
    self.log Status.warning
      ("File \"".toList ++ filePath ++ "\" tidak ditemukan dalam KMZ".toList)
  | some file =>
    let content := file.base64
    let extension := h.toLowerCase (pop (split '.' filePath))
    let fileName :=
      generateFileNameFromPlacemark placemarkName (".".toList ++ extension) keepStructure
    let isDuplicate := self.extractedImages.any (fun img => img.name = fileName)
    if isDuplicate then
      self.log Status.warning
        ("File \"".toList ++ fileName ++ "\" sudah diekstrak sebelumnya, melewati...".toList)
    else
      let self := { self with extractedImages := self.extractedImages ++
        [({ name := fileName, data := content, mimeType := none, originalFile := some filePath } : Image)] }
      self.log Status.success
        ("Berhasil mengekstrak file \"".toList ++ filePath ++ "\" dari KMZ sebagai \"".toList
          ++ fileName ++ "\"".toList)

/-! ## `processKMLAndExtractImages` (kmzExtractor.js 91-189) -/

/-- The test of the inner loop over `filesInKmz` (line 166). -/
def fileMatches (normalizedRef filename : Str) : Bool :=
  let normalizedFilename := normalizeFilePath filename
  normalizedFilename = normalizedRef
    || endsWith normalizedFilename ("/".toList ++ normalizedRef)
    || normalizedRef = pop (split '/' normalizedFilename)

/-- The inner loop over `filesInKmz` (lines 162-172): the file name at which
the loop breaks, if any. -/
def findFile (normalizedRef : Str) : List Str → Option Str
  | [] => none
  | filename :: rest =>
    if fileMatches normalizedRef filename then some filename
    else findFile normalizedRef rest

/-- The body of the loop over `imageRefs` (lines 148-181). -/
def processImageRef (h : Host) (zipContent : List ZipEntry) (filesInKmz : List Str)
    (options : Options) (placemarkName : Str) (self : KMZExtractor) (imgRef : Str) :
    KMZExtractor :=
  if startsWith imgRef "http://".toList || startsWith imgRef "https://".toList then self
  else if startsWith imgRef "data:".toList then
    extractBase64Image self imgRef placemarkName options.keepStructure
  else
    let normalizedRef := normalizeFilePath imgRef
    match findFile normalizedRef filesInKmz with
    | some filename =>
      extractFileFromKMZ h self zipContent filename placemarkName options.keepStructure
    | none =>
      self.log Status.warning
        ("Tidak menemukan file \"".toList ++ imgRef ++ "\" dalam KMZ untuk placemark \"".toList
          ++ placemarkName ++ "\"".toList)

/-- The references found in the `Data` elements of the first `ExtendedData`
element (lines 131-141). -/
def pictureRefs : List DataElement → List Str
  | [] => []
  | dataElement :: rest =>
    if dataElement.nameAttr = some "pictures".toList then
      match dataElement.values with
      | [] => pictureRefs rest
      | value :: _ =>
        extractImageReferencesFromHTML (orElse value.innerHTML value.textContent)
          ++ pictureRefs rest
    else pictureRefs rest

/-- The references collected for one placemark (lines 118-142). -/
def collectImageRefs (placemark : PlacemarkElement) : List Str :=
  let imageRefs : List Str :=
    match placemark.descriptions with
    | [] => []
    | desc :: _ => extractImageReferencesFromHTML (orElse desc.innerHTML desc.textContent)
  match placemark.extendedData with
  | [] => imageRefs
  | dataElements :: _ => imageRefs ++ pictureRefs dataElements

/-- The body of the loop over `placemarkElements` (lines 100-181). -/
def processPlacemark (h : Host) (zipContent : List ZipEntry) (filesInKmz : List Str)
    (options : Options) (self : KMZExtractor) (placemark : PlacemarkElement) : KMZExtractor :=
  match placemark.names with
  | [] => self
  | nameElement :: _ =>
    let placemarkName := trim nameElement.textContent
    let filterPlacemarks := !options.extractAllImages
    if filterPlacemarks && !startsWith placemarkName "?-".toList then self
    else
      let self := { self with placemarks := self.placemarks ++
        [({ name := placemarkName, element := placemark } : Placemark)] }
      let imageRefs := collectImageRefs placemark
      if imageRefs.length = 0 then self
      else imageRefs.foldl (processImageRef h zipContent filesInKmz options placemarkName) self

/-- A call of `processKMLAndExtractImages`: the message of the `TypeError`
thrown when `this.kmlContent` is `null`, if any, and the state afterwards. -/
def processKMLAndExtractImages (h : Host) (self : KMZExtractor) (zipContent : List ZipEntry)
    (filesInKmz : List Str) (options : Options) : Option Str × KMZExtractor :=
  let self := { self with placemarks := [] }
  match self.kmlContent with
  | none => (some "Cannot read properties of null".toList, self)
  | some kmlContent =>
    let self := kmlContent.placemarkElements.foldl
      (processPlacemark h zipContent filesInKmz options) self
    (none, self.log Status.info
      ("Ditemukan ".toList ++ numToStr self.placemarks.length ++ " placemark dalam KMZ".toList))

/-! ## `createOutputZip` and `extractImagesFromKMZ` (kmzExtractor.js 21-83, 380-391) -/

def createOutputZip (self : KMZExtractor) : List (Str × Str) :=
  self.extractedImages.map (fun image => (image.name, image.data))

/-- The loop over `zipContent.files` (lines 41-49): the last value assigned to
`kmlFile` and the list `filesInKmz`. -/
def scanFiles (h : Host) (kmlFile : Option ZipEntry) (filesInKmz : List Str) :
    List ZipEntry → Option ZipEntry × List Str
  | [] => (kmlFile, filesInKmz)
  | entry :: rest =>
    if !entry.dir then
      let filesInKmz := filesInKmz ++ [entry.name]
      if endsWith (h.toLowerCase entry.name) ".kml".toList then
        scanFiles h (some entry) filesInKmz rest
      else scanFiles h kmlFile filesInKmz rest
    else scanFiles h kmlFile filesInKmz rest

/-- The assignment `files[entry.name] = entry` that JSZip makes for an entry it
reads: an entry of that name is replaced where it stands, a new name is added
at the end. -/
def putFile (files : List ZipEntry) (entry : ZipEntry) : List ZipEntry :=
  if files.any (fun e => e.name = entry.name) then
    files.map (fun e => if e.name = entry.name then entry else e)
  else files ++ [entry]

/-- The entries of `zipContent.files` after `this.jszip.loadAsync(file)`:
JSZip reads the archive into the instance the method is called on and keeps
the entries that instance already holds.  (Names that are array indices, which
`for ... in` enumerates before the others, are not told apart.) -/
def loadAsync (jszip : List ZipEntry) (file : KmzFile) : List ZipEntry :=
  file.files.foldl putFile jszip

/-- The message of the error thrown when no KML file is found. -/
def missingKmlMessage : Str := "Tidak dapat menemukan file KML dalam KMZ".toList

/-- The `catch` block: push the warning and rethrow. -/
def rethrow (self : KMZExtractor) (message : Str) : Except Str ExtractionResult × KMZExtractor :=
  (Except.error message, { self with warnings := self.warnings ++ ["Error: ".toList ++ message] })

/-- A call of `extractImagesFromKMZ(file, options)` on an extractor in state
`self`: the returned object or the message of the thrown error, and the state
of the extractor afterwards. -/
def extractImagesFromKMZ (h : Host) (self : KMZExtractor) (file : KmzFile) (options : Options) :
    Except Str ExtractionResult × KMZExtractor :=
  let self := { self with warnings := [], logs := [], extractedImages := [] }
  let self := self.log Status.info ("Memulai ekstraksi foto dari ".toList ++ file.name)
  let self := { self with jszip := loadAsync self.jszip file }
  let zipContent := self.jszip
  match scanFiles h none [] zipContent with
  | (none, _) => rethrow self missingKmlMessage
  | (some kmlFile, filesInKmz) =>
    let kmlString := kmlFile.text
    let self := { self with kmlContent := some (h.parseFromString kmlString) }
    match processKMLAndExtractImages h self zipContent filesInKmz options with
    | (some message, self) => rethrow self message
    | (none, self) =>
      let self := self.log Status.success
        ("Berhasil mengekstrak ".toList ++ numToStr self.extractedImages.length
          ++ " foto dari file KMZ".toList)
      let outputZip := createOutputZip self
      (Except.ok
        { totalPlacemarks := self.placemarks.length
          totalPhotos := self.extractedImages.length
          warnings := self.warnings
          logs := self.logs
          outputZip := outputZip }, self)

/-! ## The specification's vocabulary

Definitions that follow the words of the specification; the theorems compare
the functions above with them. -/

/-- The substitution of the filename generator as the specification words it:
each unsafe character becomes `-?`, every other character stays. -/
def cleanSpec (name : Str) : Str :=
  name.flatMap (fun c => if c ∈ ['<', '>', ':', '"', '/', '\\', '|', '*'] then ['-', '?'] else [c])

/-- The extension with its leading dot, as the specification words it. -/
def dotted (extension : Str) : Str :=
  if extension.head? = some '.' then extension else '.' :: extension

/-- The text before the first occurrence of `sep`, the whole text when `sep`
does not occur: what is left once the part from the first `sep` on is
removed. -/
def beforeFirst (sep : Char) (s : Str) : Str := s.takeWhile (fun c => c != sep)

/-- Removal of one leading `/`. -/
def dropLeadingSlash (s : Str) : Str :=
  match s with
  | '/' :: rest => rest
  | _ => s

/-- A file entry whose path ends, case-insensitively, in `.kml`. -/
def isKmlEntry (h : Host) (e : ZipEntry) : Bool :=
  !e.dir && endsWith (h.toLowerCase e.name) ".kml".toList

/-- The `.kml` file entries of a listing, in enumeration order. -/
def kmlEntries (h : Host) (files : List ZipEntry) : List ZipEntry :=
  files.filter (isKmlEntry h)

/-- The extension table of the specification: the first key, in this order,
that occurs in `s` as a substring decides; `.jpg` when none occurs. -/
def extensionBySubstring (s : Str) : Str :=
  match [("png", ".png"), ("gif", ".gif"), ("jpeg", ".jpg"), ("webp", ".webp"),
      ("bmp", ".bmp")].find? (fun p => decide (p.1.toList <:+: s)) with
  | some p => p.2.toList
  | none => ".jpg".toList

/-- The MIME subtype: the text after the first `/` of a MIME type. -/
def mimeSubtype (mime : Str) : Str := (mime.dropWhile (fun c => c != '/')).drop 1

/-- The text a pattern node may match: one character passing the test, a
non-empty run of such characters for `+`, any run for `*`, nothing for `$`. -/
def NodeOk : Node → Str → Prop
  | Node.one t, w => ∃ c, w = [c] ∧ t c = true
  | Node.plus t, w => w ≠ [] ∧ ∀ c ∈ w, t c = true
  | Node.star t, w => ∀ c ∈ w, t c = true
  | Node.eos, w => w = []

/-- `match[1]` of a match of the `img` pattern: the `src` value. -/
def srcValue (m : List Str) : Str := m.getD imgRegexPre.length []

/-- `match[0]`: the whole matched text. -/
def wholeMatch (m : List Str) : Str := m.flatten

/-- The messages of the log entries of status `warning`. -/
def warningMessages (logs : List LogEntry) : List Str :=
  (logs.filter (fun l => l.status = Status.warning)).map LogEntry.message

/-! ## Sample inputs -/

/-- A host whose lower-casing maps the ASCII letters and whose parser looks
the text up in a table of documents, giving the empty document otherwise. -/
def tableHost (table : List (Str × Document)) : Host :=
  { toLowerCase := fun s => s.map Char.toLower
    parseFromString := fun text =>
      match table.find? (fun p => p.1 = text) with
      | some p => p.2
      | none => { placemarkElements := [] } }

/-- A text element holding plain text. -/
def plainText (s : String) : TextElement := { innerHTML := s.toList, textContent := s.toList }

/-- A text element holding one CDATA section, which `innerHTML` serializes
with its delimiters. -/
def cdataText (s : String) : TextElement :=
  { innerHTML := ("<![CDATA[" ++ s ++ "]]>").toList, textContent := s.toList }

/-- A placemark with the given name, a description written as a CDATA section
and no `ExtendedData`. -/
def placemarkWith (name description : String) : PlacemarkElement :=
  { names := [plainText name], descriptions := [cdataText description], extendedData := [] }

/-- A file entry of an archive. -/
def fileEntry (name content : String) : ZipEntry :=
  { name := name.toList, dir := false, text := content.toList, base64 := content.toList }

/-- The options of the user interface left at `false`. -/
def defaultOptions : Options := { keepStructure := false, extractAllImages := false }

/-- The options with `extractAllImages` set. -/
def allImagesOptions : Options := { keepStructure := false, extractAllImages := true }

/-- An archive holding one KML entry, `doc.kml`, with text `K`. -/
def docOnlyFile : KmzFile :=
  { name := "doc.kmz".toList, files := [fileEntry "doc.kml" "K"] }

/-- An archive without any KML entry. -/
def noKmlFile : KmzFile :=
  { name := "none.kmz".toList, files := [fileEntry "images/a.jpg" "QUJD"] }

/-- An archive with two KML entries, `a.kml` before `b.kml`. -/
def twoKmlFile : KmzFile :=
  { name := "two.kmz".toList, files := [fileEntry "a.kml" "A", fileEntry "b.kml" "B"] }

/-- The host for `twoKmlFile`: the text `A` parses to a document with one
placemark, the text `B` to the empty document. -/
def twoKmlHost : Host :=
  tableHost [("A".toList, { placemarkElements := [placemarkWith "?-P" ""] }),
    ("B".toList, { placemarkElements := [] })]

/-- A document whose only placemark, `?-A`, carries two inline images in its
description. -/
def twoInlineDoc : Document :=
  { placemarkElements :=
      [placemarkWith "?-A" ("<img src=\"data:image/png;base64,QUJD\">"
        ++ "<img src=\"data:image/png;base64,REVG\">")] }

/-- The host parsing the text `K` to `twoInlineDoc`. -/
def twoInlineHost : Host := tableHost [("K".toList, twoInlineDoc)]

/-- An archive with a KML entry and the two pictures `a/x.jpg`, `b/y.jpg`. -/
def towerFile : KmzFile :=
  { name := "tower.kmz".toList
    files := [fileEntry "doc.kml" "K", fileEntry "a/x.jpg" "eA==", fileEntry "b/y.jpg" "eQ=="] }

/-- A document whose only placemark, `Tower A`, refers to both pictures of
`towerFile`. -/
def towerDoc : Document :=
  { placemarkElements :=
      [placemarkWith "Tower A" "<img src=\"a/x.jpg\"><img src=\"b/y.jpg\">"] }

/-- The host parsing the text `K` to `towerDoc`. -/
def towerHost : Host := tableHost [("K".toList, towerDoc)]

/-- The state of the `towerFile` run once the first reference, `a/x.jpg`, has
been extracted. -/
def towerState : KMZExtractor :=
  extractFileFromKMZ towerHost KMZExtractor.new towerFile.files "a/x.jpg".toList
    "Tower A".toList false

/-- A document whose only placemark, `?-Roof`, carries an inline image in the
`pictures` field of its `ExtendedData`. -/
def roofDoc : Document :=
  { placemarkElements :=
      [{ names := [plainText "?-Roof"]
         descriptions := []
         extendedData :=
          [[{ nameAttr := some "pictures".toList
              values := [plainText "data:image/png;base64,QUJD"] }]] }] }

/-- The host parsing the text `K` to `roofDoc`. -/
def roofHost : Host := tableHost [("K".toList, roofDoc)]

/-! ## Vocabulary and samples for the scanner and the resolver -/

/-- A `Placemark` element that the scanner counts: it has a `name` element
and, unless `extractAllImages` is set, its trimmed name starts with `?-`. -/
def countsAsPlacemark (options : Options) (placemark : PlacemarkElement) : Bool :=
  match placemark.names with
  | [] => false
  | nameElement :: _ =>
    options.extractAllImages || startsWith (trim nameElement.textContent) "?-".toList

/-- An archive with the KML entry `doc.kml` and the picture
`images/pole12.jpg`. -/
def poleFile : KmzFile :=
  { name := "pole.kmz".toList
    files := [fileEntry "doc.kml" "K", fileEntry "images/pole12.jpg" "cG9sZQ=="] }

/-- The placemark `?-Pole 12` whose description element has the markup
`<img src="pole12.jpg">` as its `innerHTML`. -/
def polePlacemark : PlacemarkElement :=
  { names := [plainText "?-Pole 12"]
    descriptions := [{ innerHTML := "<img src=\"pole12.jpg\">".toList, textContent := [] }]
    extendedData := [] }

/-- A placemark named `Other` without description and without
`ExtendedData`. -/
def otherPlacemark : PlacemarkElement :=
  { names := [plainText "Other"], descriptions := [], extendedData := [] }

/-- The host parsing the text `K` to the document holding `polePlacemark`. -/
def poleHost : Host := tableHost [("K".toList, { placemarkElements := [polePlacemark] })]

/-- The host parsing the text `K` to the same document written with a CDATA
section in the description. -/
def poleCdataHost : Host :=
  tableHost [("K".toList,
    { placemarkElements := [placemarkWith "?-Pole 12" "<img src=\"pole12.jpg\">"] })]

/-- The host parsing the text `K` to the document holding `polePlacemark`
followed by `otherPlacemark`. -/
def poleOtherHost : Host :=
  tableHost [("K".toList, { placemarkElements := [polePlacemark, otherPlacemark] })]

/-- The list `filesInKmz` of a run: the names of the file entries. -/
def fileNames (files : List ZipEntry) : List Str :=
  (files.filter (fun e => !e.dir)).map ZipEntry.name

/-- The state of a run when the loop over the placemarks starts, `zipContent`
being the entries after `loadAsync` and `k` the KML entry that was read. -/
def startState (h : Host) (file : KmzFile) (zipContent : List ZipEntry) (k : ZipEntry) :
    KMZExtractor :=
  { jszip := zipContent
    kmlContent := some (h.parseFromString k.text)
    placemarks := []
    extractedImages := []
    warnings := []
    logs := [LogEntry.mk Status.info ("Memulai ekstraksi foto dari ".toList ++ file.name)] }

/-- The state of a run when the loop over the placemarks ends. -/
def afterScan (h : Host) (file : KmzFile) (zipContent : List ZipEntry) (options : Options)
    (k : ZipEntry) : KMZExtractor :=
  (h.parseFromString k.text).placemarkElements.foldl
    (processPlacemark h zipContent (fileNames zipContent) options)
    (startState h file zipContent k)

/-- The state of a run that returns, after its two closing log entries. -/
def finalState (h : Host) (file : KmzFile) (zipContent : List ZipEntry) (options : Options)
    (k : ZipEntry) : KMZExtractor :=
  ((afterScan h file zipContent options k).log Status.info
      ("Ditemukan ".toList ++ numToStr (afterScan h file zipContent options k).placemarks.length
        ++ " placemark dalam KMZ".toList)).log Status.success
    ("Berhasil mengekstrak ".toList
      ++ numToStr (afterScan h file zipContent options k).extractedImages.length
      ++ " foto dari file KMZ".toList)

/-- A reference of the shape `^data:<mime-type>;base64,<payload>$`: the text
`data:`, a non-empty run of the characters `[A-Za-z-+/]`, the text `;base64,`
and a non-empty payload without line terminators. -/
def IsInlineDataUrl (dataUrl : Str) : Prop :=
  ∃ mime payload, dataUrl = "data:".toList ++ mime ++ ";base64,".toList ++ payload
    ∧ mime ≠ [] ∧ (∀ c ∈ mime, isMimeChar c = true)
    ∧ payload ≠ [] ∧ (∀ c ∈ payload, notLineTerminator c = true)

/-- An archive with the KML entry `doc.kml` (text `K1`) and the picture
`secret.jpg`. -/
def secretFile : KmzFile :=
  { name := "old.kmz".toList
    files := [fileEntry "doc.kml" "K1", fileEntry "secret.jpg" "c2VjcmV0"] }

/-- An archive holding only the KML entry `doc.kml` (text `K2`). -/
def laterFile : KmzFile :=
  { name := "new.kmz".toList, files := [fileEntry "doc.kml" "K2"] }

/-- The host parsing the text `K1` to a document without placemarks and the
text `K2` to a document whose placemark `?-New` refers to `secret.jpg`. -/
def laterHost : Host :=
  tableHost [("K1".toList, { placemarkElements := [] }),
    ("K2".toList,
      { placemarkElements := [placemarkWith "?-New" "<img src=\"secret.jpg\">"] })]

/-- An extractor that has been used before, on `secretFile`. -/
def usedExtractor : KMZExtractor :=
  (extractImagesFromKMZ laterHost KMZExtractor.new secretFile defaultOptions).2

/-- An archive with the KML entry `doc.kml` and the entry `images/README`,
whose file name has no extension. -/
def readmeFile : KmzFile :=
  { name := "readme.kmz".toList
    files := [fileEntry "doc.kml" "K", fileEntry "images/README" "cmVhZA=="] }

/-- The host parsing the text `K` to a document whose placemark `?-P` refers
to `README`. -/
def readmeHost : Host :=
  tableHost [("K".toList, { placemarkElements := [placemarkWith "?-P" "<img src=\"README\">"] })]

/-! ## Vocabulary for the safety of names and the reduced matching test -/

/-- A name without any of the characters `< > : " / \ | *`. -/
def IsSafeName (name : Str) : Prop := ∀ c ∈ name, isUnsafeChar c = false

/-- The test of line 166 with its third disjunct deleted. -/
def fileMatchesWithoutBasename (normalizedRef filename : Str) : Bool :=
  let normalizedFilename := normalizeFilePath filename
  normalizedFilename = normalizedRef
    || endsWith normalizedFilename ("/".toList ++ normalizedRef)

/-- The loop over `filesInKmz` run with the reduced test. -/
def findFileWithoutBasename (normalizedRef : Str) : List Str → Option Str
  | [] => none
  | filename :: rest =>
    if fileMatchesWithoutBasename normalizedRef filename then some filename
    else findFileWithoutBasename normalizedRef rest

end KMZ

namespace KMZ

/-! ## Auxiliary facts on the string primitives -/

theorem first_split (sep : Char) (s : Str) :
    first (split sep s) = s.takeWhile (fun c => c != sep) := by
  induction s with
  | nil => rfl
  | cons c s ih =>
    by_cases hc : c = sep
    · simp [split, first, hc]
    · have hne : (c != sep) = true := by simp [hc]
      cases hsp : split sep s with
      | nil => simp [split, first, hc, hsp] at ih ⊢; exact ih
      | cons seg segs =>
        simp [split, first, hc, hsp] at ih ⊢
        exact ih

theorem takeWhile_ne_of_not_mem (sep : Char) (s : Str) (hs : sep ∉ s) :
    s.takeWhile (fun c => c != sep) = s := by
  induction s with
  | nil => rfl
  | cons c s ih =>
    have h1 : (c != sep) = true := by
      simp only [bne_iff_ne, ne_eq]
      exact fun h => hs (by simp [h])
    have h2 : sep ∉ s := fun h => hs (List.mem_cons_of_mem _ h)
    rw [List.takeWhile_cons, h1]
    simp [ih h2]

theorem isUnsafeChar_iff (c : Char) :
    isUnsafeChar c = true ↔ c ∈ ['<', '>', ':', '"', '/', '\\', '|', '*'] := by
  simp [isUnsafeChar, or_assoc]

theorem replaceUnsafe_eq_cleanSpec (name : Str) : replaceUnsafe name = cleanSpec name := by
  induction name with
  | nil => rfl
  | cons c s ih =>
    by_cases hc : isUnsafeChar c = true
    · have hm := (isUnsafeChar_iff c).1 hc
      rw [replaceUnsafe, if_pos hc, cleanSpec, List.flatMap_cons, if_pos hm, ih]
      rfl
    · have hm : c ∉ ['<', '>', ':', '"', '/', '\\', '|', '*'] :=
        fun h => hc ((isUnsafeChar_iff c).2 h)
      rw [replaceUnsafe, if_neg hc, cleanSpec, List.flatMap_cons, if_neg hm, ih]
      rfl

theorem startsWith_one (s : Str) (c : Char) : startsWith s [c] = decide (s.head? = some c) := by
  cases s with
  | nil => simp [startsWith, List.isPrefixOf]
  | cons d s =>
    by_cases hd : d = c
    · simp [startsWith, List.isPrefixOf, hd]
    · have : ¬ c = d := fun h => hd h.symm
      simp [startsWith, List.isPrefixOf, hd, this]

theorem dotted_eq (extension : Str) :
    (if !startsWith extension ".".toList then ".".toList ++ extension else extension)
      = dotted extension := by
  have h : ".".toList = ['.'] := rfl
  rw [h, startsWith_one, dotted]
  by_cases hd : extension.head? = some '.'
  · simp [hd]
  · simp [hd]

/-! ## The filename generator and the path normalizer (C5, C6, C7) -/

theorem startsWith_iff (s p : Str) : startsWith s p = true ↔ p <+: s := by
  simp [startsWith]

theorem generateFileName_unfold (placemarkName extension : Str) (keepStructure : Bool) :
    generateFileNameFromPlacemark placemarkName extension keepStructure
      = (if !keepStructure && startsWith (cleanSpec placemarkName) "?-".toList
          then (cleanSpec placemarkName).drop 2 else cleanSpec placemarkName)
        ++ dotted extension := by
  simp only [generateFileNameFromPlacemark, dotted_eq, replaceUnsafe_eq_cleanSpec, substring]

/-- C5: with `keepStructure = true` the generated filename is the cleaned
placemark name (each of `< > : " / \ | *` replaced by `-?`, every other
character kept) followed by the extension, which gets a leading dot when it
has none; for the empty placemark name the result is just that extension. -/
theorem generateFileName_keepStructure (placemarkName extension : Str) :
    generateFileNameFromPlacemark placemarkName extension true
        = cleanSpec placemarkName ++ dotted extension
      ∧ generateFileNameFromPlacemark [] extension true = dotted extension := by
  constructor
  · rw [generateFileName_unfold]; rfl
  · rw [generateFileName_unfold]; rfl

/-- C6: with `keepStructure = false` a cleaned name starting with `?-` loses
exactly that prefix, once, and any other cleaned name is used unchanged; with
`keepStructure = true` the cleaned name is kept whole.  For the placemark
`?-Tower A` the filename does not begin with `?-` in the first case and does
in the second, whatever the extension. -/
theorem generateFileName_marker (placemarkName extension : Str) :
    generateFileNameFromPlacemark placemarkName extension false
        = (if "?-".toList <+: cleanSpec placemarkName then (cleanSpec placemarkName).drop 2
            else cleanSpec placemarkName) ++ dotted extension
      ∧ generateFileNameFromPlacemark placemarkName extension true
        = cleanSpec placemarkName ++ dotted extension
      ∧ ¬ ("?-".toList <+: generateFileNameFromPlacemark "?-Tower A".toList extension false)
      ∧ "?-".toList <+: generateFileNameFromPlacemark "?-Tower A".toList extension true := by
  have hclean : cleanSpec "?-Tower A".toList = "?-Tower A".toList := by decide
  refine ⟨?_, ?_, ?_, ?_⟩
  · rw [generateFileName_unfold]
    by_cases hp : "?-".toList <+: cleanSpec placemarkName
    · rw [if_pos hp, (startsWith_iff _ _).2 hp]; rfl
    · have hf : startsWith (cleanSpec placemarkName) "?-".toList = false := by
        cases hsw : startsWith (cleanSpec placemarkName) "?-".toList with
        | false => rfl
        | true => exact absurd ((startsWith_iff _ _).1 hsw) hp
      rw [if_neg hp, hf]; rfl
  · rw [generateFileName_unfold]; rfl
  · rw [generateFileName_unfold, hclean]
    have h1 : startsWith "?-Tower A".toList "?-".toList = true := by decide
    simp only [h1, Bool.not_false, Bool.and_self, if_true]
    intro hpre
    have h2 : List.drop 2 "?-Tower A".toList = 'T' :: "ower A".toList := by decide
    rw [h2] at hpre
    simp at hpre
  · rw [generateFileName_unfold, hclean]
    simp only [Bool.not_true, Bool.false_and]
    exact ⟨"Tower A".toList ++ dotted extension, by simp⟩

/-- C7: `normalizeFilePath` is total; it removes everything from the first
`?` on, then everything from the first `#` on, then one leading `/`; a string
without `?`, without `#` and not starting with `/` is returned unchanged. -/
theorem normalizeFilePath_spec (p : Str) :
    normalizeFilePath p = dropLeadingSlash (beforeFirst '#' (beforeFirst '?' p))
      ∧ ('?' ∉ p → '#' ∉ p → p.head? ≠ some '/' → normalizeFilePath p = p) := by
  have hmain : normalizeFilePath p = dropLeadingSlash (beforeFirst '#' (beforeFirst '?' p)) := by
    simp only [normalizeFilePath, first_split, beforeFirst]
    generalize List.takeWhile (fun c => c != '#') (List.takeWhile (fun c => c != '?') p) = q
    have h : "/".toList = ['/'] := rfl
    rw [h, startsWith_one]
    cases q with
    | nil => simp [dropLeadingSlash]
    | cons c q =>
      by_cases hc : c = '/'
      · subst hc; simp [dropLeadingSlash, substring]
      · simp only [List.head?_cons, Option.some.injEq, hc, decide_False, Bool.false_eq_true,
          if_false]
        unfold dropLeadingSlash
        split
        · rename_i heq; cases heq; exact absurd rfl hc
        · rfl
  refine ⟨hmain, ?_⟩
  intro hq hh hs
  rw [hmain, beforeFirst, beforeFirst, takeWhile_ne_of_not_mem _ _ hq,
    takeWhile_ne_of_not_mem _ _ hh]
  unfold dropLeadingSlash
  split
  · simp at hs
  · rfl

/-- C7, at the path `/img/a.jpg?v=1#top` and at the plain path `img/a.jpg`. -/
theorem normalizeFilePath_spec_witness :
    normalizeFilePath "/img/a.jpg?v=1#top".toList = "img/a.jpg".toList
      ∧ normalizeFilePath "img/a.jpg".toList = "img/a.jpg".toList :=
  ⟨by decide,
   (normalizeFilePath_spec "img/a.jpg".toList).2 (by decide) (by decide) (by decide)⟩

/-! ## The resolver's search of the file list (C2) -/

theorem fileMatches_iff (r filename : Str) :
    fileMatches r filename = true ↔
      (normalizeFilePath filename = r
        ∨ ("/".toList ++ r) <:+ normalizeFilePath filename
        ∨ r = pop (split '/' (normalizeFilePath filename))) := by
  simp [fileMatches, endsWith, or_assoc]

theorem findFile_eq_some_iff (r : Str) (files : List Str) (f : Str) :
    findFile r files = some f ↔
      ∃ pre post, files = pre ++ f :: post ∧ fileMatches r f = true
        ∧ ∀ g ∈ pre, fileMatches r g = false := by
  induction files with
  | nil => simp [findFile]
  | cons g rest ih =>
    by_cases hg : fileMatches r g = true
    · rw [findFile, if_pos hg]
      constructor
      · intro hfg
        cases hfg
        exact ⟨[], rest, rfl, hg, by simp⟩
      · rintro ⟨pre, post, hdec, -, hpre⟩
        cases pre with
        | nil => simp at hdec; rw [hdec.1]
        | cons g' pre' =>
          simp at hdec
          have := hpre g' (by simp)
          rw [← hdec.1, hg] at this
          cases this
    · rw [findFile, if_neg hg, ih]
      constructor
      · rintro ⟨pre, post, hdec, hf, hpre⟩
        refine ⟨g :: pre, post, by simp [hdec], hf, ?_⟩
        intro g' hg'
        rcases List.mem_cons.1 hg' with h1 | h1
        · rw [h1]; simpa using hg
        · exact hpre g' h1
      · rintro ⟨pre, post, hdec, hf, hpre⟩
        cases pre with
        | nil =>
          simp at hdec
          rw [hdec.1] at hg
          exact absurd hf hg
        | cons g' pre' =>
          simp at hdec
          exact ⟨pre', post, hdec.2, hf, fun x hx => hpre x (List.mem_cons_of_mem _ hx)⟩

theorem findFile_eq_none_iff (r : Str) (files : List Str) :
    findFile r files = none ↔ ∀ g ∈ files, fileMatches r g = false := by
  induction files with
  | nil => simp [findFile]
  | cons g rest ih =>
    by_cases hg : fileMatches r g = true
    · simp [findFile, hg]
    · simp [findFile, hg, ih]

/-- C2, as the code has it: the resolver takes the first entry, in
enumeration order, that passes the single test of line 166: the normalized
path equals the normalized reference, or ends with `/` followed by it, or has
it as its last `/`-separated segment.  The three conditions are tried
together on each entry, none has priority; no entry is selected exactly when
no entry passes the test. -/
theorem findFile_first_match (ref : Str) (files : List Str) :
    (∀ f, findFile (normalizeFilePath ref) files = some f ↔
      ∃ pre post, files = pre ++ f :: post
        ∧ (normalizeFilePath f = normalizeFilePath ref
            ∨ ("/".toList ++ normalizeFilePath ref) <:+ normalizeFilePath f
            ∨ normalizeFilePath ref = pop (split '/' (normalizeFilePath f)))
        ∧ ∀ g ∈ pre, ¬ (normalizeFilePath g = normalizeFilePath ref
            ∨ ("/".toList ++ normalizeFilePath ref) <:+ normalizeFilePath g
            ∨ normalizeFilePath ref = pop (split '/' (normalizeFilePath g))))
      ∧ (findFile (normalizeFilePath ref) files = none ↔
          ∀ g ∈ files, ¬ (normalizeFilePath g = normalizeFilePath ref
            ∨ ("/".toList ++ normalizeFilePath ref) <:+ normalizeFilePath g
            ∨ normalizeFilePath ref = pop (split '/' (normalizeFilePath g)))) := by
  constructor
  · intro f
    rw [findFile_eq_some_iff]
    constructor
    · rintro ⟨pre, post, hdec, hf, hpre⟩
      refine ⟨pre, post, hdec, (fileMatches_iff _ _).1 hf, fun g hg hm => ?_⟩
      have := hpre g hg
      rw [(fileMatches_iff _ _).2 hm] at this
      cases this
    · rintro ⟨pre, post, hdec, hf, hpre⟩
      refine ⟨pre, post, hdec, (fileMatches_iff _ _).2 hf, fun g hg => ?_⟩
      cases hm : fileMatches (normalizeFilePath ref) g with
      | false => rfl
      | true => exact absurd ((fileMatches_iff _ _).1 hm) (hpre g hg)
  · rw [findFile_eq_none_iff]
    constructor
    · intro hall g hg hm
      have := hall g hg
      rw [(fileMatches_iff _ _).2 hm] at this
      cases this
    · intro hall g hg
      cases hm : fileMatches (normalizeFilePath ref) g with
      | false => rfl
      | true => exact absurd ((fileMatches_iff _ _).1 hm) (hall g hg)

/-- C2 fails as stated: in the listing `a/x.jpg`, `x.jpg` the second entry
equals the reference `x.jpg` exactly, yet the resolver selects the first
entry, which matches by the suffix rule only. -/
theorem findFile_no_tier_priority :
    ¬ ∀ (ref : Str) (files : List Str) (f : Str), f ∈ files →
        normalizeFilePath f = normalizeFilePath ref →
        ∃ g, findFile (normalizeFilePath ref) files = some g
          ∧ normalizeFilePath g = normalizeFilePath ref := by
  intro hall
  obtain ⟨g, hg, hexact⟩ :=
    hall "x.jpg".toList ["a/x.jpg".toList, "x.jpg".toList] "x.jpg".toList (by decide) rfl
  have hsel : findFile (normalizeFilePath "x.jpg".toList) ["a/x.jpg".toList, "x.jpg".toList]
      = some "a/x.jpg".toList := by decide
  rw [hsel] at hg
  cases hg
  revert hexact
  decide

/-! ## Frame properties of the extraction steps -/

theorem foldl_preserves {α β γ : Type} (f : α → β → α) (g : α → γ)
    (hf : ∀ a b, g (f a b) = g a) (l : List β) (a : α) : g (l.foldl f a) = g a := by
  induction l generalizing a with
  | nil => rfl
  | cons b l ih => rw [List.foldl_cons, ih, hf]

@[simp] theorem log_kmlContent (self : KMZExtractor) (st : Status) (m : Str) :
    (self.log st m).kmlContent = self.kmlContent := rfl

@[simp] theorem log_placemarks (self : KMZExtractor) (st : Status) (m : Str) :
    (self.log st m).placemarks = self.placemarks := rfl

@[simp] theorem log_extractedImages (self : KMZExtractor) (st : Status) (m : Str) :
    (self.log st m).extractedImages = self.extractedImages := rfl

@[simp] theorem log_warnings (self : KMZExtractor) (st : Status) (m : Str) :
    (self.log st m).warnings = self.warnings := rfl

@[simp] theorem log_logs (self : KMZExtractor) (st : Status) (m : Str) :
    (self.log st m).logs = self.logs ++ [{ status := st, message := m }] := rfl

theorem extractBase64Image_kmlContent (self : KMZExtractor) (dataUrl placemarkName : Str)
    (keepStructure : Bool) :
    (extractBase64Image self dataUrl placemarkName keepStructure).kmlContent
      = self.kmlContent := by
  unfold extractBase64Image
  split
  · rfl
  · split <;> rfl

theorem extractFileFromKMZ_kmlContent (h : Host) (self : KMZExtractor)
    (zipContent : List ZipEntry) (filePath placemarkName : Str) (keepStructure : Bool) :
    (extractFileFromKMZ h self zipContent filePath placemarkName keepStructure).kmlContent
      = self.kmlContent := by
  unfold extractFileFromKMZ
  split
  · rfl
  · simp only []
    split <;> rfl

theorem processImageRef_kmlContent (h : Host) (zipContent : List ZipEntry)
    (filesInKmz : List Str) (options : Options) (placemarkName : Str) (self : KMZExtractor)
    (imgRef : Str) :
    (processImageRef h zipContent filesInKmz options placemarkName self imgRef).kmlContent
      = self.kmlContent := by
  unfold processImageRef
  split
  · rfl
  · split
    · exact extractBase64Image_kmlContent _ _ _ _
    · simp only []
      split
      · exact extractFileFromKMZ_kmlContent _ _ _ _ _ _
      · rfl

theorem processPlacemark_kmlContent (h : Host) (zipContent : List ZipEntry)
    (filesInKmz : List Str) (options : Options) (self : KMZExtractor)
    (placemark : PlacemarkElement) :
    (processPlacemark h zipContent filesInKmz options self placemark).kmlContent
      = self.kmlContent := by
  unfold processPlacemark
  split
  · rfl
  · simp only []
    split
    · rfl
    · split
      · rfl
      · rw [foldl_preserves _ KMZExtractor.kmlContent
          (fun a b => processImageRef_kmlContent h zipContent filesInKmz options _ a b)]

/-! ## Locating the KML entry (C3, C4) -/

theorem scanFiles_cons (h : Host) (kmlFile : Option ZipEntry) (filesInKmz : List Str)
    (e : ZipEntry) (rest : List ZipEntry) :
    scanFiles h kmlFile filesInKmz (e :: rest)
      = scanFiles h (if isKmlEntry h e then some e else kmlFile)
          (if e.dir then filesInKmz else filesInKmz ++ [e.name]) rest := by
  cases hd : e.dir with
  | true => simp only [scanFiles, isKmlEntry, hd]; rfl
  | false =>
    cases hs : endsWith (h.toLowerCase e.name) ".kml".toList with
    | true => simp only [scanFiles, isKmlEntry, hd, hs]; rfl
    | false => simp only [scanFiles, isKmlEntry, hd, hs]; rfl

theorem scanFiles_fst (h : Host) (kmlFile : Option ZipEntry) (filesInKmz : List Str)
    (files : List ZipEntry) :
    (scanFiles h kmlFile filesInKmz files).1 = ((kmlEntries h files).getLast?).or kmlFile := by
  induction files generalizing kmlFile filesInKmz with
  | nil => simp [scanFiles, kmlEntries]
  | cons e rest ih =>
    rw [scanFiles_cons, ih]
    unfold kmlEntries
    rw [List.filter_cons]
    cases hk : isKmlEntry h e with
    | true =>
      simp only [if_true, List.getLast?_cons]
      cases (List.filter (isKmlEntry h) rest).getLast? <;> simp
    | false => simp

theorem scanFiles_snd (h : Host) (kmlFile : Option ZipEntry) (filesInKmz : List Str)
    (files : List ZipEntry) :
    (scanFiles h kmlFile filesInKmz files).2
      = filesInKmz ++ (files.filter (fun e => !e.dir)).map ZipEntry.name := by
  induction files generalizing kmlFile filesInKmz with
  | nil => simp [scanFiles]
  | cons e rest ih =>
    rw [scanFiles_cons, ih, List.filter_cons]
    cases hd : e.dir <;> simp

theorem kmlEntries_eq_nil_iff (h : Host) (files : List ZipEntry) :
    kmlEntries h files = [] ↔
      ∀ e ∈ files, e.dir = false → endsWith (h.toLowerCase e.name) ".kml".toList = false := by
  simp only [kmlEntries, List.filter_eq_nil_iff, isKmlEntry]
  constructor
  · intro hall e he hd
    have := hall e he
    rw [hd] at this
    simpa using this
  · intro hall e he
    cases hd : e.dir with
    | true => simp
    | false => rw [hall e he hd]; decide

theorem putFile_of_new (files : List ZipEntry) (entry : ZipEntry)
    (hn : ∀ e ∈ files, e.name ≠ entry.name) : putFile files entry = files ++ [entry] := by
  unfold putFile
  have hany : files.any (fun e => decide (e.name = entry.name)) = false := by
    rw [List.any_eq_false]
    intro e he
    simpa using hn e he
  rw [hany]
  rfl

theorem foldl_putFile_of_new (files acc : List ZipEntry)
    (hd : (files.map ZipEntry.name).Nodup)
    (hn : ∀ e ∈ acc, ∀ f ∈ files, e.name ≠ f.name) :
    files.foldl putFile acc = acc ++ files := by
  induction files generalizing acc with
  | nil => simp
  | cons f rest ih =>
    rw [List.map_cons, List.nodup_cons] at hd
    rw [List.foldl_cons, putFile_of_new acc f (fun e he => hn e he f (by simp)),
      ih (acc ++ [f]) hd.2]
    · simp
    · intro e he g hg
      rcases List.mem_append.1 he with h1 | h1
      · exact hn e h1 g (List.mem_cons_of_mem _ hg)
      · rw [List.mem_singleton] at h1
        rw [h1]
        intro hname
        exact hd.1 (List.mem_map.2 ⟨g, hg, hname.symm⟩)

/-- On a fresh extractor the listing after `loadAsync` is the archive's own
listing (entry names within one archive being distinct). -/
theorem loadAsync_fresh (file : KmzFile) (hd : (file.files.map ZipEntry.name).Nodup) :
    loadAsync KMZExtractor.new.jszip file = file.files := by
  unfold loadAsync
  rw [foldl_putFile_of_new file.files _ hd (by intro e he; cases he)]
  rfl

@[simp] theorem log_jszip (self : KMZExtractor) (st : Status) (m : Str) :
    (self.log st m).jszip = self.jszip := rfl

theorem extractImagesFromKMZ_of_no_kml (h : Host) (self : KMZExtractor) (file : KmzFile)
    (options : Options) (hk : kmlEntries h (loadAsync self.jszip file) = []) :
    (extractImagesFromKMZ h self file options).1 = Except.error missingKmlMessage := by
  have h1 := scanFiles_fst h none [] (loadAsync self.jszip file)
  rw [hk] at h1
  simp only [List.getLast?_nil, Option.or] at h1
  have h2 : scanFiles h none [] (loadAsync self.jszip file)
      = (none, (scanFiles h none [] (loadAsync self.jszip file)).2) := Prod.ext h1 rfl
  unfold extractImagesFromKMZ
  simp only [log_jszip]
  rw [h2]
  rfl

theorem extractImagesFromKMZ_of_kml (h : Host) (self : KMZExtractor) (file : KmzFile)
    (options : Options) (k : ZipEntry)
    (hk : (kmlEntries h (loadAsync self.jszip file)).getLast? = some k) :
    (∃ r, (extractImagesFromKMZ h self file options).1 = Except.ok r)
      ∧ (extractImagesFromKMZ h self file options).2.kmlContent
          = some (h.parseFromString k.text) := by
  have h1 := scanFiles_fst h none [] (loadAsync self.jszip file)
  rw [hk] at h1
  simp only [Option.or] at h1
  have h2 : scanFiles h none [] (loadAsync self.jszip file)
      = (some k, (scanFiles h none [] (loadAsync self.jszip file)).2) := Prod.ext h1 rfl
  unfold extractImagesFromKMZ
  simp only [log_jszip]
  rw [h2]
  simp only [processKMLAndExtractImages, log_kmlContent]
  refine ⟨⟨_, rfl⟩, ?_⟩
  rw [foldl_preserves _ KMZExtractor.kmlContent
    (fun a b => processPlacemark_kmlContent h _ _ options a b)]

/-- C3, as the code has it: when the listing that the loop of lines 41-49
enumerates (the entries of `zipContent.files`, which for a fresh extractor are
those of the archive, see `loadAsync_fresh`) holds two or more `.kml` file
entries, the run raises no error and the entry that is read and parsed is the
last of them in enumeration order (the loop overwrites `kmlFile` at every
`.kml` entry and never breaks). -/
theorem extractImagesFromKMZ_uses_last_kml (h : Host) (self : KMZExtractor) (file : KmzFile)
    (options : Options) (hk : 2 ≤ (kmlEntries h (loadAsync self.jszip file)).length) :
    ∃ k r, (kmlEntries h (loadAsync self.jszip file)).getLast? = some k
      ∧ (extractImagesFromKMZ h self file options).1 = Except.ok r
      ∧ (extractImagesFromKMZ h self file options).2.kmlContent
          = some (h.parseFromString k.text) := by
  cases hl : (kmlEntries h (loadAsync self.jszip file)).getLast? with
  | none =>
    rw [List.getLast?_eq_none_iff] at hl
    rw [hl] at hk
    simp at hk
  | some k =>
    obtain ⟨⟨r, hr⟩, hc⟩ := extractImagesFromKMZ_of_kml h self file options k hl
    exact ⟨k, r, rfl, hr, hc⟩

/-- C3 at a fresh extractor and the archive `a.kml`, `b.kml`: the document
parsed is that of `b.kml`. -/
theorem extractImagesFromKMZ_uses_last_kml_witness :
    2 ≤ (kmlEntries twoKmlHost (loadAsync KMZExtractor.new.jszip twoKmlFile)).length
      ∧ ∃ k r, (kmlEntries twoKmlHost (loadAsync KMZExtractor.new.jszip twoKmlFile)).getLast?
          = some k
        ∧ (extractImagesFromKMZ twoKmlHost KMZExtractor.new twoKmlFile defaultOptions).1
            = Except.ok r
        ∧ (extractImagesFromKMZ twoKmlHost KMZExtractor.new twoKmlFile defaultOptions).2.kmlContent
            = some (twoKmlHost.parseFromString k.text) :=
  ⟨by decide,
   extractImagesFromKMZ_uses_last_kml twoKmlHost KMZExtractor.new twoKmlFile defaultOptions
     (by decide)⟩

/-- C3 fails as stated: it is not the first `.kml` entry that is parsed.  For
the archive `a.kml`, `b.kml` loaded into a fresh extractor the parsed document
is that of `b.kml`, which differs from that of `a.kml`. -/
theorem extractImagesFromKMZ_not_first_kml :
    ¬ ∀ (h : Host) (self : KMZExtractor) (file : KmzFile) (options : Options),
        2 ≤ (kmlEntries h (loadAsync self.jszip file)).length →
        ∃ k, (kmlEntries h (loadAsync self.jszip file)).head? = some k
          ∧ (extractImagesFromKMZ h self file options).2.kmlContent
              = some (h.parseFromString k.text) := by
  intro hall
  obtain ⟨k, hk, hc⟩ := hall twoKmlHost KMZExtractor.new twoKmlFile defaultOptions (by decide)
  have hhead : (kmlEntries twoKmlHost (loadAsync KMZExtractor.new.jszip twoKmlFile)).head?
      = some (fileEntry "a.kml" "A") := by
    decide
  rw [hhead] at hk
  cases hk
  have hlast : (kmlEntries twoKmlHost (loadAsync KMZExtractor.new.jszip twoKmlFile)).getLast?
      = some (fileEntry "b.kml" "B") := by
    decide
  have hc' := (extractImagesFromKMZ_of_kml twoKmlHost KMZExtractor.new twoKmlFile defaultOptions
    _ hlast).2
  rw [hc'] at hc
  revert hc
  decide

/-- C4: when no file entry of the listing that the loop of lines 41-49
enumerates (the entries of `zipContent.files`, which for a fresh extractor are
those of the archive, see `loadAsync_fresh`) has a path ending,
case-insensitively, in `.kml`, the run throws the missing-KML error, whatever
the options, and returns no result; when some file entry has such a path,
that error is not thrown. -/
theorem extractImagesFromKMZ_missingKml (h : Host) (self : KMZExtractor) (file : KmzFile)
    (options : Options) :
    ((∀ e ∈ loadAsync self.jszip file, e.dir = false →
          endsWith (h.toLowerCase e.name) ".kml".toList = false) →
        (extractImagesFromKMZ h self file options).1 = Except.error missingKmlMessage)
      ∧ ((∃ e ∈ loadAsync self.jszip file, e.dir = false
          ∧ endsWith (h.toLowerCase e.name) ".kml".toList = true) →
        (extractImagesFromKMZ h self file options).1 ≠ Except.error missingKmlMessage) := by
  constructor
  · intro hno
    exact extractImagesFromKMZ_of_no_kml h self file options
      ((kmlEntries_eq_nil_iff h (loadAsync self.jszip file)).2 hno)
  · rintro ⟨e, he, hd, hs⟩
    have hne : kmlEntries h (loadAsync self.jszip file) ≠ [] := by
      intro hnil
      have := (kmlEntries_eq_nil_iff h (loadAsync self.jszip file)).1 hnil e he hd
      rw [hs] at this
      cases this
    cases hl : (kmlEntries h (loadAsync self.jszip file)).getLast? with
    | none => exact absurd (List.getLast?_eq_none_iff.1 hl) hne
    | some k =>
      obtain ⟨⟨r, hr⟩, -⟩ := extractImagesFromKMZ_of_kml h self file options k hl
      rw [hr]
      intro hcontra
      cases hcontra

/-- C4 at a fresh extractor and an archive holding only `images/a.jpg` (the
error is thrown) and at the archive `a.kml`, `b.kml` (it is not). -/
theorem extractImagesFromKMZ_missingKml_witness :
    (extractImagesFromKMZ twoKmlHost KMZExtractor.new noKmlFile defaultOptions).1
        = Except.error missingKmlMessage
      ∧ (extractImagesFromKMZ twoKmlHost KMZExtractor.new twoKmlFile defaultOptions).1
        ≠ Except.error missingKmlMessage :=
  ⟨(extractImagesFromKMZ_missingKml twoKmlHost KMZExtractor.new noKmlFile defaultOptions).1
      (by decide),
   (extractImagesFromKMZ_missingKml twoKmlHost KMZExtractor.new twoKmlFile defaultOptions).2
      ⟨fileEntry "a.kml" "A", by decide, by decide, by decide⟩⟩

/-! ## Names in the result set (C1, C9) -/

/-- C1 does not hold on the code: for a placemark `?-A` whose description
holds two inline `data:` images the run returns two extracted images that are
both named `A.png`; `extractBase64Image` appends without the duplicate check
that `extractFileFromKMZ` makes. -/
theorem extractImagesFromKMZ_duplicate_inline_names :
    (extractImagesFromKMZ twoInlineHost KMZExtractor.new docOnlyFile
        defaultOptions).2.extractedImages.map Image.name
      = ["A.png".toList, "A.png".toList]
    ∧ ((extractImagesFromKMZ twoInlineHost KMZExtractor.new docOnlyFile
        defaultOptions).1.toOption.map ExtractionResult.totalPhotos) = some 2
    ∧ ¬ ((extractImagesFromKMZ twoInlineHost KMZExtractor.new docOnlyFile
        defaultOptions).2.extractedImages.map Image.name).Nodup := by
  decide

/-- C9: when the entry exists in the archive and the filename generated for
it is already the name of an extracted image, `extractFileFromKMZ` leaves the
list of extracted images as it is and appends exactly one log entry, a
warning saying the file was extracted before. -/
theorem extractFileFromKMZ_duplicate (h : Host) (self : KMZExtractor)
    (zipContent : List ZipEntry) (filePath placemarkName : Str) (keepStructure : Bool)
    (hfile : ∃ file, lookupFile zipContent filePath = some file)
    (hdup : ∃ img ∈ self.extractedImages, img.name =
      generateFileNameFromPlacemark placemarkName
        (".".toList ++ h.toLowerCase (pop (split '.' filePath))) keepStructure) :
    (extractFileFromKMZ h self zipContent filePath placemarkName keepStructure).extractedImages
        = self.extractedImages
      ∧ (extractFileFromKMZ h self zipContent filePath placemarkName keepStructure).logs
        = self.logs ++ [LogEntry.mk Status.warning
            ("File \"".toList ++ generateFileNameFromPlacemark placemarkName
              (".".toList ++ h.toLowerCase (pop (split '.' filePath))) keepStructure
              ++ "\" sudah diekstrak sebelumnya, melewati...".toList)] := by
  obtain ⟨file, hfile⟩ := hfile
  obtain ⟨img, himg, hname⟩ := hdup
  have hany : self.extractedImages.any (fun img => img.name =
      generateFileNameFromPlacemark placemarkName
        (".".toList ++ h.toLowerCase (pop (split '.' filePath))) keepStructure) = true := by
    rw [List.any_eq_true]
    exact ⟨img, himg, by simpa using hname⟩
  unfold extractFileFromKMZ
  rw [hfile]
  simp only []
  rw [if_pos hany]
  exact ⟨rfl, rfl⟩

/-- C9 on the scenario of the specification: the placemark `Tower A` refers to
`a/x.jpg` and `b/y.jpg`, which both generate `Tower A.jpg`; the run ends with
one extracted image of that name and one warning, and the second extraction
is an instance of the theorem. -/
theorem extractFileFromKMZ_duplicate_witness :
    ((extractImagesFromKMZ towerHost KMZExtractor.new towerFile
        allImagesOptions).2.extractedImages.map Image.name = ["Tower A.jpg".toList]
      ∧ warningMessages (extractImagesFromKMZ towerHost KMZExtractor.new towerFile
        allImagesOptions).2.logs
          = ["File \"Tower A.jpg\" sudah diekstrak sebelumnya, melewati...".toList])
    ∧ ((extractFileFromKMZ towerHost towerState towerFile.files "b/y.jpg".toList
          "Tower A".toList false).extractedImages = towerState.extractedImages
      ∧ (extractFileFromKMZ towerHost towerState towerFile.files "b/y.jpg".toList
          "Tower A".toList false).logs
        = towerState.logs ++ [LogEntry.mk Status.warning
            ("File \"".toList ++ generateFileNameFromPlacemark "Tower A".toList
              (".".toList ++ towerHost.toLowerCase (pop (split '.' "b/y.jpg".toList))) false
              ++ "\" sudah diekstrak sebelumnya, melewati...".toList)]) :=
  ⟨by decide,
   extractFileFromKMZ_duplicate towerHost towerState towerFile.files "b/y.jpg".toList
     "Tower A".toList false ⟨fileEntry "b/y.jpg" "eQ==", by decide⟩ (by decide)⟩

/-! ## Facts on the matcher -/

theorem includes_iff (s p : Str) : includes s p = true ↔ p <:+: s := by
  induction s with
  | nil => simp [includes, List.isEmpty_iff]
  | cons c s ih =>
    rw [includes, Bool.or_eq_true, ih, List.infix_cons_iff, List.isPrefixOf_iff_prefix]

theorem mimeExtension_eq (mime : Str) : mimeExtension mime = extensionBySubstring mime := by
  unfold mimeExtension extensionBySubstring
  simp only [List.find?, includes_iff]
  by_cases h1 : "png".toList <:+: mime
  · simp only [h1, if_true, decide_True]
  by_cases h2 : "gif".toList <:+: mime
  · simp only [h1, h2, if_true, if_false, decide_True, decide_False]
  by_cases h3 : "jpeg".toList <:+: mime
  · simp only [h1, h2, h3, if_true, if_false, decide_True, decide_False]
  by_cases h4 : "webp".toList <:+: mime
  · simp only [h1, h2, h3, h4, if_true, if_false, decide_True, decide_False]
  by_cases h5 : "bmp".toList <:+: mime
  · simp only [h1, h2, h3, h4, h5, if_true, if_false, decide_True, decide_False]
  · simp only [h1, h2, h3, h4, h5, if_false, decide_False]

theorem takeWhile_all (t : Char → Bool) (a : Str) (ha : ∀ c ∈ a, t c = true) :
    a.takeWhile t = a := by
  induction a with
  | nil => rfl
  | cons c a ih =>
    rw [List.takeWhile_cons, ha c (by simp)]
    simp [ih (fun d hd => ha d (List.mem_cons_of_mem _ hd))]

theorem takeWhile_stop (t : Char → Bool) (a : Str) (b : Char) (r : Str)
    (ha : ∀ c ∈ a, t c = true) (hb : t b = false) : (a ++ b :: r).takeWhile t = a := by
  induction a with
  | nil => simp [List.takeWhile_cons, hb]
  | cons c a ih =>
    rw [List.cons_append, List.takeWhile_cons, ha c (by simp)]
    simp [ih (fun d hd => ha d (List.mem_cons_of_mem _ hd))]

theorem greedy_hit (cont : Str → Option (List Str)) (min n : Nat) (s : Str) (r : List Str)
    (hn : n ≠ 0) (hc : cont (s.drop n) = some r) :
    greedy cont min n s = some (s.take n :: r) := by
  cases n with
  | zero => exact absurd rfl hn
  | succ k => rw [greedy, hc]

theorem matchHere_one (t : Char → Bool) (ns : List Node) (c : Char) (s : Str) :
    matchHere (Node.one t :: ns) (c :: s)
      = if t c then (matchHere ns s).map (fun r => [c] :: r) else none := by
  simp only [matchHere]

theorem matchHere_plus (t : Char → Bool) (ns : List Node) (s : Str) :
    matchHere (Node.plus t :: ns) s
      = greedy (fun s' => matchHere ns s') 1 (s.takeWhile t).length s := by
  simp only [matchHere]

theorem matchHere_star (t : Char → Bool) (ns : List Node) (s : Str) :
    matchHere (Node.star t :: ns) s
      = greedy (fun s' => matchHere ns s') 0 (s.takeWhile t).length s := by
  simp only [matchHere]

theorem matchHere_lit (w : Str) (ns : List Node) (s : Str) :
    matchHere (w.map lit ++ ns) (w ++ s)
      = (matchHere ns s).map (fun r => w.map (fun c => [c]) ++ r) := by
  induction w with
  | nil => simp
  | cons c w ih =>
    have hl : lit c = Node.one (fun x => decide (x = c)) := rfl
    rw [List.map_cons, List.cons_append, List.cons_append, hl, matchHere_one, ih]
    cases matchHere ns s <;> simp

theorem matchHere_dataUrl (mime payload : Str) (hm : mime ≠ [])
    (hmc : ∀ c ∈ mime, isMimeChar c = true) (hp : payload ≠ [])
    (hpc : ∀ c ∈ payload, notLineTerminator c = true) :
    matchHere dataUrlRegex ("data:".toList ++ mime ++ ";base64,".toList ++ payload)
      = some ("data:".toList.map (fun c => [c]) ++ mime ::
          (";base64,".toList.map (fun c => [c]) ++ [payload, []])) := by
  have htail : matchHere ([Node.plus notLineTerminator] ++ [Node.eos]) payload
      = some [payload, []] := by
    have hlen : payload.length ≠ 0 := fun h => hp (List.length_eq_zero.1 h)
    rw [List.singleton_append, matchHere_plus, takeWhile_all _ _ hpc,
      greedy_hit _ 1 _ payload [[]] hlen]
    · simp
    · simp [matchHere]
  have hmid : matchHere ([Node.plus isMimeChar] ++ (";base64,".toList.map lit
      ++ ([Node.plus notLineTerminator] ++ [Node.eos]))) (mime ++ (";base64,".toList ++ payload))
      = some (mime :: (";base64,".toList.map (fun c => [c]) ++ [payload, []])) := by
    have hlen : mime.length ≠ 0 := fun h => hm (List.length_eq_zero.1 h)
    have hsemi : ";base64,".toList ++ payload = ';' :: ("base64,".toList ++ payload) := rfl
    have htw : (mime ++ (";base64,".toList ++ payload)).takeWhile isMimeChar = mime := by
      rw [hsemi]
      exact takeWhile_stop _ _ _ _ hmc (by decide)
    rw [List.singleton_append, matchHere_plus, htw,
      greedy_hit _ 1 _ (mime ++ (";base64,".toList ++ payload))
        (";base64,".toList.map (fun c => [c]) ++ [payload, []]) hlen]
    · simp
    · simp only [List.drop_left]
      rw [matchHere_lit, htail]
      rfl
  unfold dataUrlRegex
  simp only [List.append_assoc]
  rw [matchHere_lit, hmid]
  rfl

/-! ## Inline images (C10) -/

theorem matchDataUrl_eq (mime payload : Str) (hm : mime ≠ [])
    (hmc : ∀ c ∈ mime, isMimeChar c = true) (hp : payload ≠ [])
    (hpc : ∀ c ∈ payload, notLineTerminator c = true) :
    matchDataUrl ("data:".toList ++ mime ++ ";base64,".toList ++ payload)
      = some ["data:".toList ++ mime ++ ";base64,".toList ++ payload, mime, payload] := by
  unfold matchDataUrl
  rw [matchHere_dataUrl mime payload hm hmc hp hpc]
  have h1 : "data:".toList.map (fun c => [c]) = [['d'], ['a'], ['t'], ['a'], [':']] := rfl
  have h2 : ";base64,".toList.map (fun c => [c])
      = [[';'], ['b'], ['a'], ['s'], ['e'], ['6'], ['4'], [',']] := rfl
  have h3 : "data:".toList = ['d', 'a', 't', 'a', ':'] := rfl
  have h4 : ";base64,".toList = [';', 'b', 'a', 's', 'e', '6', '4', ','] := rfl
  rw [h1, h2, h3, h4]
  simp [List.flatten]

/-- C10, as the code has it: for a reference `data:` ++ mime ++ `;base64,` ++
payload whose mime is a non-empty run of the characters `[A-Za-z-+/]` and
whose payload is non-empty and free of line terminators, `extractBase64Image`
appends exactly one image, with the payload as data, mime as `mimeType` and
the name generated from the placemark name and the extension found by the
first matching substring test `png`, `gif`, `jpeg`, `webp`, `bmp` (default
`.jpg`) on the whole MIME type; it appends exactly one log entry, of status
`success`; nothing else changes. -/
theorem extractBase64Image_inline (self : KMZExtractor) (mime payload placemarkName : Str)
    (keepStructure : Bool) (hm : mime ≠ []) (hmc : ∀ c ∈ mime, isMimeChar c = true)
    (hp : payload ≠ []) (hpc : ∀ c ∈ payload, notLineTerminator c = true) :
    extractBase64Image self ("data:".toList ++ mime ++ ";base64,".toList ++ payload)
        placemarkName keepStructure
      = { self with
          extractedImages := self.extractedImages ++
            [Image.mk (generateFileNameFromPlacemark placemarkName (extensionBySubstring mime)
              keepStructure) payload (some mime) none]
          logs := self.logs ++
            [LogEntry.mk Status.success
              ("Berhasil mengekstrak gambar base64 dari placemark \"".toList ++ placemarkName
                ++ "\" sebagai \"".toList
                ++ generateFileNameFromPlacemark placemarkName (extensionBySubstring mime)
                    keepStructure
                ++ "\"".toList)] } := by
  unfold extractBase64Image
  rw [matchDataUrl_eq mime payload hm hmc hp hpc]
  simp only [List.length_cons, List.length_nil, ne_eq, not_true_eq_false, if_false,
    mimeExtension_eq, List.getD_cons_succ, List.getD_cons_zero, KMZExtractor.log]

/-- C10 on the scenario of the specification: `data:image/png;base64,QUJD` in
the `pictures` field of the placemark `?-Roof`, with `keepStructure = false`,
yields one image named `Roof.png` with data `QUJD`. -/
theorem extractBase64Image_inline_witness :
    (extractImagesFromKMZ roofHost KMZExtractor.new docOnlyFile defaultOptions).2.extractedImages
        = [Image.mk "Roof.png".toList "QUJD".toList (some "image/png".toList) none]
    ∧ generateFileNameFromPlacemark "?-Roof".toList (extensionBySubstring "image/png".toList) false
        = "Roof.png".toList
    ∧ extractBase64Image KMZExtractor.new
        ("data:".toList ++ "image/png".toList ++ ";base64,".toList ++ "QUJD".toList)
        "?-Roof".toList false
      = { KMZExtractor.new with
          extractedImages := KMZExtractor.new.extractedImages ++
            [Image.mk (generateFileNameFromPlacemark "?-Roof".toList
              (extensionBySubstring "image/png".toList) false) "QUJD".toList
              (some "image/png".toList) none]
          logs := KMZExtractor.new.logs ++
            [LogEntry.mk Status.success
              ("Berhasil mengekstrak gambar base64 dari placemark \"".toList ++ "?-Roof".toList
                ++ "\" sebagai \"".toList
                ++ generateFileNameFromPlacemark "?-Roof".toList
                    (extensionBySubstring "image/png".toList) false
                ++ "\"".toList)] } :=
  ⟨by decide, by decide,
   extractBase64Image_inline KMZExtractor.new "image/png".toList "QUJD".toList "?-Roof".toList
     false (by decide) (by decide) (by decide) (by decide)⟩

/-- C10 fails as stated: the extension is not chosen from the MIME subtype.
For `data:png/jpeg;base64,QUJD` the subtype `jpeg` would give `.jpg`, but the
substring test runs on the whole type `png/jpeg` and the image is named
`P.png`. -/
theorem extractBase64Image_ext_not_from_subtype :
    ¬ ∀ (self : KMZExtractor) (mime payload placemarkName : Str) (keepStructure : Bool),
        mime ≠ [] → (∀ c ∈ mime, isMimeChar c = true) →
        payload ≠ [] → (∀ c ∈ payload, notLineTerminator c = true) →
        (extractBase64Image self ("data:".toList ++ mime ++ ";base64,".toList ++ payload)
            placemarkName keepStructure).extractedImages
          = self.extractedImages ++
            [Image.mk (generateFileNameFromPlacemark placemarkName
              (extensionBySubstring (mimeSubtype mime)) keepStructure) payload (some mime)
              none] := by
  intro hall
  have hbad := hall KMZExtractor.new "png/jpeg".toList "QUJD".toList "P".toList true
    (by decide) (by decide) (by decide) (by decide)
  revert hbad
  decide

/-! ## The reference extractor (C8) -/

theorem greedy_sound (cont : Str → Option (List Str)) (min n : Nat) (s : Str) (m : List Str)
    (hmin1 : min ≤ 1) (hg : greedy cont min n s = some m) :
    ∃ k r, min ≤ k ∧ k ≤ n ∧ cont (s.drop k) = some r ∧ m = s.take k :: r := by
  induction n with
  | zero =>
    rw [greedy] at hg
    by_cases hmin : min = 0
    · rw [if_pos hmin] at hg
      cases hc : cont s with
      | none => rw [hc] at hg; cases hg
      | some r =>
        rw [hc] at hg
        cases hg
        exact ⟨0, r, by omega, le_refl _, by simpa using hc, by simp⟩
    · rw [if_neg hmin] at hg; cases hg
  | succ n ih =>
    rw [greedy] at hg
    cases hc : cont (s.drop (n + 1)) with
    | some r =>
      rw [hc] at hg
      cases hg
      exact ⟨n + 1, r, by omega, le_refl _, hc, rfl⟩
    | none =>
      rw [hc] at hg
      obtain ⟨k, r, h1, h2, h3, h4⟩ := ih hg
      exact ⟨k, r, h1, by omega, h3, h4⟩


theorem take_le_takeWhile (t : Char → Bool) (s : Str) (k : Nat)
    (hk : k ≤ (s.takeWhile t).length) : ∀ c ∈ s.take k, t c = true := by
  induction s generalizing k with
  | nil => simp
  | cons d s ih =>
    cases k with
    | zero => simp
    | succ k =>
      rw [List.takeWhile_cons] at hk
      cases hd : t d with
      | false => rw [hd] at hk; simp at hk
      | true =>
        rw [hd] at hk
        simp at hk
        intro c hc
        rw [List.take_succ_cons, List.mem_cons] at hc
        rcases hc with h1 | h1
        · rw [h1]; exact hd
        · exact ih k hk c h1

theorem take_ne_nil (t : Char → Bool) (s : Str) (k : Nat) (h1 : 1 ≤ k)
    (hk : k ≤ (s.takeWhile t).length) : s.take k ≠ [] := by
  intro hnil
  have hlen : (s.take k).length = 0 := by rw [hnil]; rfl
  have hle : (s.takeWhile t).length ≤ s.length := (List.takeWhile_sublist t).length_le
  rw [List.length_take] at hlen
  omega

theorem matchHere_sound (p : List Node) (s : Str) (m : List Str)
    (hm : matchHere p s = some m) : List.Forall₂ NodeOk p m := by
  induction p generalizing s m with
  | nil =>
    rw [matchHere] at hm
    cases hm
    exact List.Forall₂.nil
  | cons nd ns ih =>
    cases nd with
    | one t =>
      cases s with
      | nil => simp [matchHere] at hm
      | cons c s =>
        rw [matchHere_one] at hm
        cases htc : t c with
        | false => rw [htc] at hm; simp at hm
        | true =>
          rw [htc, if_pos rfl] at hm
          cases hr : matchHere ns s with
          | none => rw [hr] at hm; cases hm
          | some r =>
            rw [hr] at hm
            cases hm
            exact List.Forall₂.cons ⟨c, rfl, htc⟩ (ih s r hr)
    | plus t =>
      rw [matchHere_plus] at hm
      obtain ⟨k, r, h1, h2, h3, h4⟩ := greedy_sound _ _ _ _ _ (le_refl 1) hm
      rw [h4]
      exact List.Forall₂.cons ⟨take_ne_nil t s k h1 h2, take_le_takeWhile t s k h2⟩
        (ih _ r h3)
    | star t =>
      rw [matchHere_star] at hm
      obtain ⟨k, r, -, h2, h3, h4⟩ := greedy_sound _ _ _ _ _ (Nat.zero_le 1) hm
      rw [h4]
      exact List.Forall₂.cons (take_le_takeWhile t s k h2) (ih _ r h3)
    | eos =>
      simp only [matchHere] at hm
      cases hs : s.isEmpty with
      | false => rw [hs] at hm; simp at hm
      | true =>
        rw [hs, if_pos rfl] at hm
        cases hr : matchHere ns s with
        | none => rw [hr] at hm; cases hm
        | some r =>
          rw [hr] at hm
          cases hm
          exact List.Forall₂.cons rfl (ih s r hr)

theorem forall₂_get? {α β : Type} (R : α → β → Prop) (p : List α) (m : List β)
    (h : List.Forall₂ R p m) (i : Nat) (x : α) (hx : p.get? i = some x) :
    ∃ y, m.get? i = some y ∧ R x y := by
  induction h generalizing i with
  | nil => simp at hx
  | cons hxy _ ih =>
    cases i with
    | zero =>
      simp only [List.get?_cons_zero, Option.some.injEq] at hx
      subst hx
      exact ⟨_, rfl, hxy⟩
    | succ i => exact ih i hx

theorem execAll_mem (p : List Node) (k : Nat) (s : Str) (m : List Str)
    (hm : m ∈ execAll p k s) : ∃ s', matchHere p s' = some m := by
  induction s generalizing k with
  | nil =>
    rw [execAll] at hm
    cases hr : matchHere p [] with
    | none => rw [hr] at hm; simp at hm
    | some r =>
      rw [hr] at hm
      simp only [List.mem_singleton] at hm
      exact ⟨[], by rw [hr, hm]⟩
  | cons c s ih =>
    cases k with
    | zero =>
      rw [execAll] at hm
      cases hr : matchHere p (c :: s) with
      | none => rw [hr] at hm; exact ih 0 hm
      | some r =>
        rw [hr] at hm
        simp only [List.mem_cons] at hm
        rcases hm with h1 | h1
        · exact ⟨c :: s, by rw [hr, h1]⟩
        · exact ih _ h1
    | succ k =>
      rw [execAll] at hm
      exact ih k hm

theorem srcValue_ne_nil (s : Str) (m : List Str) (hm : matchHere imgRegex s = some m) :
    srcValue m ≠ [] := by
  have hshape := matchHere_sound imgRegex s m hm
  obtain ⟨y, hy, hok⟩ := forall₂_get? NodeOk imgRegex m hshape imgRegexPre.length
    (Node.plus notQuote) rfl
  rw [srcValue, List.getD_eq_getElem?_getD, ← List.get?_eq_getElem?, hy]
  exact hok.1

theorem wholeMatch_ne_nil (s : Str) (m : List Str) (hm : matchHere base64Regex s = some m) :
    wholeMatch m ≠ [] := by
  have hshape := matchHere_sound base64Regex s m hm
  obtain ⟨y, hy, c, hyc, -⟩ := forall₂_get? NodeOk base64Regex m hshape 0 (ci 'd') rfl
  cases m with
  | nil => simp at hy
  | cons w ws =>
    simp only [List.get?_cons_zero, Option.some.injEq] at hy
    rw [wholeMatch, hy, hyc]
    simp

theorem imgMatch_ne_nil (s : Str) (m : List Str) (hm : matchHere imgRegex s = some m) :
    wholeMatch m ≠ [] := by
  have hshape := matchHere_sound imgRegex s m hm
  obtain ⟨y, hy, c, hyc, -⟩ := forall₂_get? NodeOk imgRegex m hshape 0 (ci '<') rfl
  cases m with
  | nil => simp at hy
  | cons w ws =>
    simp only [List.get?_cons_zero, Option.some.injEq] at hy
    rw [wholeMatch, hy, hyc]
    simp

theorem filterMap_truthy (l : List (List Str)) (g : List Str → Str)
    (hg : ∀ m ∈ l, g m ≠ []) :
    l.filterMap (fun m => if truthy (g m) then some (g m) else none) = l.map g := by
  induction l with
  | nil => rfl
  | cons a l ih =>
    have ha : truthy (g a) = true := by
      have := hg a (by simp)
      cases hga : g a with
      | nil => exact absurd hga this
      | cons c w => rfl
    rw [List.filterMap_cons, ha, if_pos rfl, List.map_cons,
      ih (fun m hm => hg m (List.mem_cons_of_mem _ hm))]

theorem imgReferences_eq (html : Str) :
    imgReferences html = (execAll imgRegex 0 html).map srcValue := by
  unfold imgReferences
  apply filterMap_truthy _ srcValue
  intro m hm
  obtain ⟨s', hs'⟩ := execAll_mem _ _ _ _ hm
  exact srcValue_ne_nil s' m hs'

theorem base64References_eq (html : Str) :
    base64References html = (execAll base64Regex 0 html).map wholeMatch := by
  unfold base64References
  apply filterMap_truthy _ wholeMatch
  intro m hm
  obtain ⟨s', hs'⟩ := execAll_mem _ _ _ _ hm
  exact wholeMatch_ne_nil s' m hs'

/-- C8: `extractImageReferencesFromHTML` returns the `src` values of the
matches of the `img` pattern, in document order and with duplicates kept, when
there is at least one match; exactly when there is none it returns the whole
texts of the matches of the `data:image/...;base64,...` pattern instead, so
the empty list when neither pattern matches.  Every `img` match consists of
the pieces of the pattern, its `src` value non-empty.  A markup with an `img`
tag and a separate bare `data:image` payload yields the `src` value only. -/
theorem extractImageReferencesFromHTML_spec (html : Str) :
    extractImageReferencesFromHTML html
        = (if execAll imgRegex 0 html = [] then (execAll base64Regex 0 html).map wholeMatch
            else (execAll imgRegex 0 html).map srcValue)
      ∧ (∀ m ∈ execAll imgRegex 0 html, List.Forall₂ NodeOk imgRegex m ∧ srcValue m ≠ [])
      ∧ extractImageReferencesFromHTML
          "<img src=\"a.jpg\"> data:image/png;base64,QUJD".toList = ["a.jpg".toList] := by
  refine ⟨?_, ?_, by decide⟩
  · unfold extractImageReferencesFromHTML
    simp only [imgReferences_eq, base64References_eq, List.length_map]
    by_cases hnil : execAll imgRegex 0 html = []
    · rw [hnil]; simp
    · have hlen : (execAll imgRegex 0 html).length ≠ 0 := fun h => hnil (List.length_eq_zero.1 h)
      rw [if_neg hlen, if_neg hnil]
  · intro m hm
    obtain ⟨s', hs'⟩ := execAll_mem _ _ _ _ hm
    exact ⟨matchHere_sound _ _ _ hs', srcValue_ne_nil s' m hs'⟩

/-! ## The placemark scanner (C11, C13) -/

theorem extractBase64Image_placemarks (self : KMZExtractor) (dataUrl placemarkName : Str)
    (keepStructure : Bool) :
    (extractBase64Image self dataUrl placemarkName keepStructure).placemarks
      = self.placemarks := by
  unfold extractBase64Image
  split
  · rfl
  · split <;> rfl

theorem extractFileFromKMZ_placemarks (h : Host) (self : KMZExtractor)
    (zipContent : List ZipEntry) (filePath placemarkName : Str) (keepStructure : Bool) :
    (extractFileFromKMZ h self zipContent filePath placemarkName keepStructure).placemarks
      = self.placemarks := by
  unfold extractFileFromKMZ
  split
  · rfl
  · simp only []
    split <;> rfl

theorem processImageRef_placemarks (h : Host) (zipContent : List ZipEntry)
    (filesInKmz : List Str) (options : Options) (placemarkName : Str) (self : KMZExtractor)
    (imgRef : Str) :
    (processImageRef h zipContent filesInKmz options placemarkName self imgRef).placemarks
      = self.placemarks := by
  unfold processImageRef
  split
  · rfl
  · split
    · exact extractBase64Image_placemarks _ _ _ _
    · simp only []
      split
      · exact extractFileFromKMZ_placemarks _ _ _ _ _ _
      · rfl

theorem processPlacemark_of_not_counted (h : Host) (zipContent : List ZipEntry)
    (filesInKmz : List Str) (options : Options) (self : KMZExtractor)
    (placemark : PlacemarkElement) (hc : countsAsPlacemark options placemark = false) :
    processPlacemark h zipContent filesInKmz options self placemark = self := by
  unfold processPlacemark
  unfold countsAsPlacemark at hc
  split
  · rfl
  · rename_i nameElement rest hnames
    rw [hnames] at hc
    simp only [Bool.or_eq_false_iff] at hc
    simp only [hc.1, hc.2, Bool.not_false, Bool.and_self, if_true]

theorem processPlacemark_placemarks_length (h : Host) (zipContent : List ZipEntry)
    (filesInKmz : List Str) (options : Options) (self : KMZExtractor)
    (placemark : PlacemarkElement) :
    (processPlacemark h zipContent filesInKmz options self placemark).placemarks.length
      = self.placemarks.length + (if countsAsPlacemark options placemark then 1 else 0) := by
  cases hc : countsAsPlacemark options placemark with
  | false => rw [processPlacemark_of_not_counted _ _ _ _ _ _ hc]; simp
  | true =>
    unfold processPlacemark
    unfold countsAsPlacemark at hc
    split
    · rename_i hnames; rw [hnames] at hc; cases hc
    · rename_i nameElement rest hnames
      rw [hnames] at hc
      simp only [] at hc
      have hf : (!options.extractAllImages
          && !startsWith (trim nameElement.textContent) "?-".toList) = false := by
        cases hx : options.extractAllImages
        · rw [hx] at hc
          simp only [Bool.false_or] at hc
          rw [hc]; rfl
        · rfl
      simp only [hf, Bool.false_eq_true, if_false]
      split
      · simp
      · rw [foldl_preserves _ KMZExtractor.placemarks
          (fun a b => processImageRef_placemarks h zipContent filesInKmz options _ a b)]
        simp

theorem foldl_processPlacemark_length (h : Host) (zipContent : List ZipEntry)
    (filesInKmz : List Str) (options : Options) (placemarks : List PlacemarkElement)
    (self : KMZExtractor) :
    (placemarks.foldl (processPlacemark h zipContent filesInKmz options) self).placemarks.length
      = self.placemarks.length + (placemarks.filter (countsAsPlacemark options)).length := by
  induction placemarks generalizing self with
  | nil => simp
  | cons pm rest ih =>
    rw [List.foldl_cons, ih, processPlacemark_placemarks_length, List.filter_cons]
    cases countsAsPlacemark options pm with
    | false => simp
    | true => simp; omega

theorem scanFiles_eq (h : Host) (files : List ZipEntry) :
    scanFiles h none [] files = ((kmlEntries h files).getLast?, fileNames files) := by
  have h1 := scanFiles_fst h none [] files
  have h2 := scanFiles_snd h none [] files
  rw [Option.or_none] at h1
  rw [List.nil_append] at h2
  exact Prod.ext h1 h2

theorem extractImagesFromKMZ_eq_of_kml (h : Host) (self : KMZExtractor) (file : KmzFile)
    (options : Options) (k : ZipEntry)
    (hk : (kmlEntries h (loadAsync self.jszip file)).getLast? = some k) :
    extractImagesFromKMZ h self file options
      = (Except.ok
          { totalPlacemarks :=
              (finalState h file (loadAsync self.jszip file) options k).placemarks.length
            totalPhotos :=
              (finalState h file (loadAsync self.jszip file) options k).extractedImages.length
            warnings := (finalState h file (loadAsync self.jszip file) options k).warnings
            logs := (finalState h file (loadAsync self.jszip file) options k).logs
            outputZip := createOutputZip (finalState h file (loadAsync self.jszip file) options k) },
          finalState h file (loadAsync self.jszip file) options k) := by
  unfold extractImagesFromKMZ
  simp only [log_jszip, scanFiles_eq, hk]
  rfl

theorem extractImagesFromKMZ_eq_of_no_kml (h : Host) (self : KMZExtractor) (file : KmzFile)
    (options : Options) (hk : (kmlEntries h (loadAsync self.jszip file)).getLast? = none) :
    extractImagesFromKMZ h self file options
      = (Except.error missingKmlMessage,
          { jszip := loadAsync self.jszip file
            kmlContent := self.kmlContent
            placemarks := self.placemarks
            extractedImages := []
            warnings := ["Error: ".toList ++ missingKmlMessage]
            logs := [LogEntry.mk Status.info
              ("Memulai ekstraksi foto dari ".toList ++ file.name)] }) := by
  unfold extractImagesFromKMZ
  simp only [log_jszip, scanFiles_eq, hk]
  rfl

/-- C11: in a run that reads the KML entry `k` (the last `.kml` entry of the
listing the run enumerates), `totalPlacemarks` is the number of `Placemark`
elements of the parsed document that have a `name` element and, when
`extractAllImages` is false, whose trimmed name starts with `?-` (every named
placemark when it is true), whatever references they yield; a named placemark
rejected by the filter leaves the state of the extractor unchanged: no
placemark record, no image, no log entry. -/
theorem totalPlacemarks_spec (h : Host) (self : KMZExtractor) (file : KmzFile)
    (options : Options) (k : ZipEntry)
    (hk : (kmlEntries h (loadAsync self.jszip file)).getLast? = some k) :
    (∃ r, (extractImagesFromKMZ h self file options).1 = Except.ok r
        ∧ r.totalPlacemarks
          = ((h.parseFromString k.text).placemarkElements.filter
              (countsAsPlacemark options)).length)
      ∧ ∀ (zipContent : List ZipEntry) (filesInKmz : List Str) (state : KMZExtractor)
          (placemark : PlacemarkElement) (nameElement : TextElement)
          (rest : List TextElement), placemark.names = nameElement :: rest →
          options.extractAllImages = false →
          startsWith (trim nameElement.textContent) "?-".toList = false →
          processPlacemark h zipContent filesInKmz options state placemark = state := by
  constructor
  · rw [extractImagesFromKMZ_eq_of_kml h self file options k hk]
    refine ⟨_, rfl, ?_⟩
    show (afterScan h file (loadAsync self.jszip file) options k).placemarks.length = _
    rw [afterScan, foldl_processPlacemark_length]
    simp [startState]
  · intro zipContent filesInKmz state placemark nameElement rest hnames hall hstart
    apply processPlacemark_of_not_counted
    rw [countsAsPlacemark, hnames]
    simp only [hall, hstart, Bool.or_self]

/-- C11 on the scenario of the specification: with `extractAllImages = true`
the placemark `Other`, which has no images, is counted (two placemarks, one
photo); with `extractAllImages = false` it is not. -/
theorem totalPlacemarks_spec_witness :
    ((extractImagesFromKMZ poleOtherHost KMZExtractor.new poleFile allImagesOptions).1.toOption.map
        (fun r => (r.totalPlacemarks, r.totalPhotos)) = some (2, 1)
      ∧ (extractImagesFromKMZ poleOtherHost KMZExtractor.new poleFile
          defaultOptions).1.toOption.map
        (fun r => (r.totalPlacemarks, r.totalPhotos)) = some (1, 1))
    ∧ (∃ r, (extractImagesFromKMZ poleOtherHost KMZExtractor.new poleFile allImagesOptions).1
          = Except.ok r
        ∧ r.totalPlacemarks
          = ((poleOtherHost.parseFromString (fileEntry "doc.kml" "K").text).placemarkElements.filter
              (countsAsPlacemark allImagesOptions)).length)
    ∧ processPlacemark poleOtherHost poleFile.files (fileNames poleFile.files) defaultOptions
        KMZExtractor.new otherPlacemark = KMZExtractor.new :=
  ⟨by decide,
   (totalPlacemarks_spec poleOtherHost KMZExtractor.new poleFile allImagesOptions
      (fileEntry "doc.kml" "K") (by decide)).1,
   (totalPlacemarks_spec poleOtherHost KMZExtractor.new poleFile defaultOptions
      (fileEntry "doc.kml" "K") (by decide)).2 poleFile.files (fileNames poleFile.files)
      KMZExtractor.new otherPlacemark (plainText "Other") [] rfl rfl (by decide)⟩

/-- C13: a `Placemark` element without a `name` element leaves the state of
the extractor unchanged, for both values of `extractAllImages` and whatever
its description and `ExtendedData` hold; the loop over the placemarks ends in
the same state as if the element were not in the document, so it is not
counted and contributes no image and no log entry. -/
theorem processPlacemark_nameless (h : Host) (zipContent : List ZipEntry)
    (filesInKmz : List Str) (options : Options) (self : KMZExtractor)
    (placemark : PlacemarkElement) (before after : List PlacemarkElement)
    (hn : placemark.names = []) :
    processPlacemark h zipContent filesInKmz options self placemark = self
      ∧ (before ++ placemark :: after).foldl (processPlacemark h zipContent filesInKmz options)
          self
        = (before ++ after).foldl (processPlacemark h zipContent filesInKmz options) self := by
  have hc : countsAsPlacemark options placemark = false := by
    rw [countsAsPlacemark, hn]
  have hstep := fun s => processPlacemark_of_not_counted h zipContent filesInKmz options s
    placemark hc
  refine ⟨hstep self, ?_⟩
  rw [List.foldl_append, List.foldl_cons, hstep, List.foldl_append]

/-- C13 at a nameless placemark that carries an image reference, placed after
`polePlacemark`, with `extractAllImages = true`. -/
theorem processPlacemark_nameless_witness :
    processPlacemark poleHost poleFile.files (fileNames poleFile.files) allImagesOptions
        KMZExtractor.new { polePlacemark with names := [] } = KMZExtractor.new
      ∧ ([polePlacemark] ++ { polePlacemark with names := [] } :: []).foldl
          (processPlacemark poleHost poleFile.files (fileNames poleFile.files) allImagesOptions)
          KMZExtractor.new
        = ([polePlacemark] ++ []).foldl
          (processPlacemark poleHost poleFile.files (fileNames poleFile.files) allImagesOptions)
          KMZExtractor.new :=
  processPlacemark_nameless poleHost poleFile.files (fileNames poleFile.files) allImagesOptions
    KMZExtractor.new { polePlacemark with names := [] } [polePlacemark] [] rfl

/-! ## The resolver: remote, unmatched and basename references (C12, C14, C15) -/

theorem split_last (sep : Char) (s : Str) :
    (∃ seg, split sep s = [seg] ∧ s = seg)
      ∨ (∃ seg segs, split sep s = seg :: segs ∧ segs ≠ []
          ∧ (sep :: segs.getLastD []) <:+ s) := by
  induction s with
  | nil => exact Or.inl ⟨[], rfl, rfl⟩
  | cons c s ih =>
    by_cases hc : c = sep
    · right
      refine ⟨[], split sep s, by rw [split, if_pos hc], ?_, ?_⟩
      · rcases ih with ⟨seg, h1, -⟩ | ⟨seg, segs, h1, -, -⟩ <;> rw [h1] <;> simp
      · rcases ih with ⟨seg, h1, h2⟩ | ⟨seg, segs, h1, h2, h3⟩
        · rw [h1, hc, ← h2]
          exact List.suffix_refl _
        · rw [h1]
          cases segs with
          | nil => exact absurd rfl h2
          | cons x xs => exact h3.trans (List.suffix_cons _ _)
    · rcases ih with ⟨seg, h1, h2⟩ | ⟨seg, segs, h1, h2, h3⟩
      · left
        exact ⟨c :: seg, by rw [split, if_neg hc, h1], by rw [h2]⟩
      · right
        exact ⟨c :: seg, segs, by rw [split, if_neg hc, h1], h2,
          h3.trans (List.suffix_cons _ _)⟩

theorem pop_split (sep : Char) (s : Str) :
    pop (split sep s) = s ∨ (sep :: pop (split sep s)) <:+ s := by
  rcases split_last sep s with ⟨seg, h1, h2⟩ | ⟨seg, segs, h1, h2, h3⟩
  · left
    rw [h1, h2]; rfl
  · right
    rw [h1]
    cases segs with
    | nil => exact absurd rfl h2
    | cons x xs => exact h3

theorem fileMatches_iff_exact_or_suffix (r filename : Str) :
    fileMatches r filename = true ↔
      (normalizeFilePath filename = r ∨ ("/".toList ++ r) <:+ normalizeFilePath filename) := by
  rw [fileMatches_iff]
  constructor
  · rintro (h1 | h2 | h3)
    · exact Or.inl h1
    · exact Or.inr h2
    · rcases pop_split '/' (normalizeFilePath filename) with h4 | h4
      · exact Or.inl (by rw [h3, h4])
      · rw [← h3] at h4
        exact Or.inr h4
  · rintro (h1 | h2)
    · exact Or.inl h1
    · exact Or.inr (Or.inl h2)

theorem not_startsWith (s p : Str) (hp : ¬ p <+: s) : startsWith s p = false := by
  cases hs : startsWith s p with
  | false => rfl
  | true => exact absurd ((startsWith_iff s p).1 hs) hp

theorem processImageRef_of_none (h : Host) (zipContent : List ZipEntry)
    (filesInKmz : List Str) (options : Options) (placemarkName : Str) (self : KMZExtractor)
    (imgRef : Str) (h1 : ¬ "http://".toList <+: imgRef) (h2 : ¬ "https://".toList <+: imgRef)
    (h3 : ¬ "data:".toList <+: imgRef)
    (hnone : findFile (normalizeFilePath imgRef) filesInKmz = none) :
    processImageRef h zipContent filesInKmz options placemarkName self imgRef
      = self.log Status.warning
          ("Tidak menemukan file \"".toList ++ imgRef
            ++ "\" dalam KMZ untuk placemark \"".toList ++ placemarkName ++ "\"".toList) := by
  unfold processImageRef
  rw [not_startsWith _ _ h1, not_startsWith _ _ h2, not_startsWith _ _ h3]
  simp only [Bool.or_self, Bool.false_eq_true, if_false]
  rw [hnone]

/-- C12, as the code has it: when no file entry matches the reference by its
exact normalized path or by the suffix rule, the resolver selects no entry,
also when some entry has the same final path segment as the reference (the
test of line 166 compares the entry's final segment with the whole normalized
reference); an archive-relative reference then gets the file-not-found
warning and no image. -/
theorem findFile_none_without_exact_or_suffix (h : Host) (zipContent : List ZipEntry)
    (filesInKmz : List Str) (options : Options) (placemarkName : Str) (self : KMZExtractor)
    (imgRef : Str)
    (hno : ∀ f ∈ filesInKmz, normalizeFilePath f ≠ normalizeFilePath imgRef
      ∧ ¬ ("/".toList ++ normalizeFilePath imgRef) <:+ normalizeFilePath f)
    (h1 : ¬ "http://".toList <+: imgRef) (h2 : ¬ "https://".toList <+: imgRef)
    (h3 : ¬ "data:".toList <+: imgRef) :
    findFile (normalizeFilePath imgRef) filesInKmz = none
      ∧ processImageRef h zipContent filesInKmz options placemarkName self imgRef
        = self.log Status.warning
            ("Tidak menemukan file \"".toList ++ imgRef
              ++ "\" dalam KMZ untuk placemark \"".toList ++ placemarkName ++ "\"".toList) := by
  have hnone : findFile (normalizeFilePath imgRef) filesInKmz = none := by
    rw [findFile_eq_none_iff]
    intro g hg
    cases hm : fileMatches (normalizeFilePath imgRef) g with
    | false => rfl
    | true =>
      rcases (fileMatches_iff_exact_or_suffix _ _).1 hm with h4 | h4
      · exact absurd h4 (hno g hg).1
      · exact absurd h4 (hno g hg).2
  exact ⟨hnone, processImageRef_of_none h zipContent filesInKmz options placemarkName self
    imgRef h1 h2 h3 hnone⟩

/-- C12 at the reference `photos/a.jpg` against the single entry
`images/a.jpg`: no entry is selected and the warning is logged. -/
theorem findFile_none_without_exact_or_suffix_witness :
    findFile (normalizeFilePath "photos/a.jpg".toList) ["images/a.jpg".toList] = none
      ∧ processImageRef poleHost [fileEntry "images/a.jpg" "QQ=="] ["images/a.jpg".toList]
          defaultOptions "P".toList KMZExtractor.new "photos/a.jpg".toList
        = KMZExtractor.new.log Status.warning
            ("Tidak menemukan file \"".toList ++ "photos/a.jpg".toList
              ++ "\" dalam KMZ untuk placemark \"".toList ++ "P".toList ++ "\"".toList) :=
  findFile_none_without_exact_or_suffix poleHost [fileEntry "images/a.jpg" "QQ=="]
    ["images/a.jpg".toList] defaultOptions "P".toList KMZExtractor.new "photos/a.jpg".toList
    (by decide) (by decide) (by decide) (by decide)

/-- C12 fails as stated: the entry `images/a.jpg` has the final path segment
`a.jpg` of the reference `photos/a.jpg` and matches neither exactly nor by the
suffix rule, yet the resolver selects no entry. -/
theorem findFile_no_basename_match :
    ¬ ∀ (ref : Str) (files : List Str),
        (∀ f ∈ files, normalizeFilePath f ≠ normalizeFilePath ref
          ∧ ¬ ("/".toList ++ normalizeFilePath ref) <:+ normalizeFilePath f) →
        (∃ f ∈ files, pop (split '/' (normalizeFilePath f))
          = pop (split '/' (normalizeFilePath ref))) →
        ∃ g, findFile (normalizeFilePath ref) files = some g
          ∧ pop (split '/' (normalizeFilePath g)) = pop (split '/' (normalizeFilePath ref)) := by
  intro hall
  obtain ⟨g, hg, -⟩ := hall "photos/a.jpg".toList ["images/a.jpg".toList] (by decide)
    ⟨"images/a.jpg".toList, by decide, by decide⟩
  have hnone : findFile (normalizeFilePath "photos/a.jpg".toList) ["images/a.jpg".toList]
      = none := by decide
  rw [hnone] at hg
  cases hg

/-- C14: a reference starting with `http://` or `https://` leaves the state
of the extractor unchanged: no image, so nothing counted in `totalPhotos`,
and no log entry, for every archive listing and placemark name. -/
theorem processImageRef_remote (h : Host) (zipContent : List ZipEntry)
    (filesInKmz : List Str) (options : Options) (placemarkName : Str) (self : KMZExtractor)
    (imgRef : Str) (hr : "http://".toList <+: imgRef ∨ "https://".toList <+: imgRef) :
    processImageRef h zipContent filesInKmz options placemarkName self imgRef = self := by
  unfold processImageRef
  rcases hr with hr | hr
  · rw [(startsWith_iff _ _).2 hr]; rfl
  · rw [(startsWith_iff _ _).2 hr, Bool.or_true]; rfl

/-- C14 at `http://example.com/a.jpg`, alone and inside a description: the
run then counts no photo and logs only its opening and closing entries. -/
theorem processImageRef_remote_witness :
    ((extractImagesFromKMZ
        (tableHost [("K".toList, { placemarkElements :=
          [placemarkWith "?-P" "<img src=\"http://example.com/a.jpg\">"] })])
        KMZExtractor.new poleFile defaultOptions).1.toOption.map
        (fun r => (r.totalPhotos, r.logs.map LogEntry.status))
      = some (0, [Status.info, Status.info, Status.success]))
    ∧ processImageRef poleHost poleFile.files (fileNames poleFile.files) defaultOptions
        "?-P".toList KMZExtractor.new "http://example.com/a.jpg".toList = KMZExtractor.new :=
  ⟨by decide,
   processImageRef_remote poleHost poleFile.files (fileNames poleFile.files) defaultOptions
     "?-P".toList KMZExtractor.new "http://example.com/a.jpg".toList (Or.inl (by decide))⟩

/-- C15: for an archive-relative reference (not starting with `http://`,
`https://` or `data:`) that no entry of the file list matches by any of the
three conditions, the resolver adds no image and appends exactly one log
entry, a warning whose message contains the placemark name; the loop over the
references goes on with the next reference from that state. -/
theorem processImageRef_not_found (h : Host) (zipContent : List ZipEntry)
    (filesInKmz : List Str) (options : Options) (placemarkName : Str) (self : KMZExtractor)
    (imgRef : Str) (rest : List Str)
    (h1 : ¬ "http://".toList <+: imgRef) (h2 : ¬ "https://".toList <+: imgRef)
    (h3 : ¬ "data:".toList <+: imgRef)
    (hno : ∀ f ∈ filesInKmz, ¬ (normalizeFilePath f = normalizeFilePath imgRef
      ∨ ("/".toList ++ normalizeFilePath imgRef) <:+ normalizeFilePath f
      ∨ normalizeFilePath imgRef = pop (split '/' (normalizeFilePath f)))) :
    ∃ message,
      (processImageRef h zipContent filesInKmz options placemarkName self imgRef).extractedImages
          = self.extractedImages
        ∧ (processImageRef h zipContent filesInKmz options placemarkName self imgRef).logs
          = self.logs ++ [LogEntry.mk Status.warning message]
        ∧ placemarkName <:+: message
        ∧ (imgRef :: rest).foldl (processImageRef h zipContent filesInKmz options placemarkName)
            self
          = rest.foldl (processImageRef h zipContent filesInKmz options placemarkName)
            (self.log Status.warning message) := by
  have hnone : findFile (normalizeFilePath imgRef) filesInKmz = none := by
    rw [findFile_eq_none_iff]
    intro g hg
    cases hm : fileMatches (normalizeFilePath imgRef) g with
    | false => rfl
    | true => exact absurd ((fileMatches_iff _ _).1 hm) (hno g hg)
  have hstep := processImageRef_of_none h zipContent filesInKmz options placemarkName self
    imgRef h1 h2 h3 hnone
  refine ⟨_, by rw [hstep]; rfl, by rw [hstep]; rfl, ?_, by rw [List.foldl_cons, hstep]⟩
  exact ⟨"Tidak menemukan file \"".toList ++ imgRef
    ++ "\" dalam KMZ untuk placemark \"".toList, "\"".toList, by simp⟩

/-- C15 at the reference `missing.jpg` of the placemark `?-P`, followed by the
reference `pole12.jpg`, which is still extracted. -/
theorem processImageRef_not_found_witness :
    ((["missing.jpg".toList, "pole12.jpg".toList].foldl
        (processImageRef poleHost poleFile.files (fileNames poleFile.files) defaultOptions
          "?-P".toList) KMZExtractor.new).extractedImages.map Image.name = ["P.jpg".toList])
    ∧ ∃ message,
      (processImageRef poleHost poleFile.files (fileNames poleFile.files) defaultOptions
          "?-P".toList KMZExtractor.new "missing.jpg".toList).extractedImages
          = KMZExtractor.new.extractedImages
        ∧ (processImageRef poleHost poleFile.files (fileNames poleFile.files) defaultOptions
          "?-P".toList KMZExtractor.new "missing.jpg".toList).logs
          = KMZExtractor.new.logs ++ [LogEntry.mk Status.warning message]
        ∧ "?-P".toList <:+: message
        ∧ ("missing.jpg".toList :: ["pole12.jpg".toList]).foldl
            (processImageRef poleHost poleFile.files (fileNames poleFile.files) defaultOptions
              "?-P".toList) KMZExtractor.new
          = ["pole12.jpg".toList].foldl
            (processImageRef poleHost poleFile.files (fileNames poleFile.files) defaultOptions
              "?-P".toList) (KMZExtractor.new.log Status.warning message) :=
  ⟨by decide,
   processImageRef_not_found poleHost poleFile.files (fileNames poleFile.files) defaultOptions
     "?-P".toList KMZExtractor.new "missing.jpg".toList ["pole12.jpg".toList]
     (by decide) (by decide) (by decide) (by decide)⟩

/-! ## Malformed inline references (C16) -/

theorem matchHere_lit_inv (w : Str) (ns : List Node) (s : Str) (m : List Str)
    (hm : matchHere (w.map lit ++ ns) s = some m) :
    ∃ s' r, s = w ++ s' ∧ matchHere ns s' = some r := by
  induction w generalizing s m with
  | nil => exact ⟨s, m, rfl, hm⟩
  | cons c w ih =>
    have hl : lit c = Node.one (fun x => decide (x = c)) := rfl
    rw [List.map_cons, List.cons_append, hl] at hm
    cases s with
    | nil => simp [matchHere] at hm
    | cons d s =>
      rw [matchHere_one] at hm
      by_cases hd : d = c
      · simp only [hd, decide_True, if_true] at hm
        cases hr : matchHere (w.map lit ++ ns) s with
        | none => rw [hr] at hm; cases hm
        | some r =>
          obtain ⟨s', r', h1, h2⟩ := ih s r hr
          exact ⟨s', r', by rw [hd, h1]; rfl, h2⟩
      · simp [hd] at hm

theorem matchHere_plus_inv (t : Char → Bool) (ns : List Node) (s : Str) (m : List Str)
    (hm : matchHere (Node.plus t :: ns) s = some m) :
    ∃ a s' r, s = a ++ s' ∧ a ≠ [] ∧ (∀ c ∈ a, t c = true) ∧ matchHere ns s' = some r := by
  rw [matchHere_plus] at hm
  obtain ⟨k, r, h1, h2, h3, -⟩ := greedy_sound _ _ _ _ _ (le_refl 1) hm
  exact ⟨s.take k, s.drop k, r, (List.take_append_drop k s).symm, take_ne_nil t s k h1 h2,
    take_le_takeWhile t s k h2, h3⟩

theorem matchHere_eos_inv (s : Str) (m : List Str) (hm : matchHere [Node.eos] s = some m) :
    s = [] := by
  simp only [matchHere] at hm
  cases s with
  | nil => rfl
  | cons c s => simp at hm

theorem isInlineDataUrl_iff (dataUrl : Str) :
    IsInlineDataUrl dataUrl ↔ (matchDataUrl dataUrl).isSome = true := by
  constructor
  · rintro ⟨mime, payload, hu, hm, hmc, hp, hpc⟩
    rw [hu, matchDataUrl_eq mime payload hm hmc hp hpc]
    rfl
  · intro hsome
    unfold matchDataUrl at hsome
    cases hmatch : matchHere dataUrlRegex dataUrl with
    | none => rw [hmatch] at hsome; cases hsome
    | some m =>
      unfold dataUrlRegex at hmatch
      simp only [List.append_assoc] at hmatch
      obtain ⟨s1, r1, hs1, hr1⟩ := matchHere_lit_inv _ _ _ _ hmatch
      rw [List.singleton_append] at hr1
      obtain ⟨mime, s2, r2, hs2, hm, hmc, hr2⟩ := matchHere_plus_inv _ _ _ _ hr1
      obtain ⟨s3, r3, hs3, hr3⟩ := matchHere_lit_inv _ _ _ _ hr2
      rw [List.singleton_append] at hr3
      obtain ⟨payload, s4, r4, hs4, hp, hpc, hr4⟩ := matchHere_plus_inv _ _ _ _ hr3
      have hs5 := matchHere_eos_inv _ _ hr4
      refine ⟨mime, payload, ?_, hm, hmc, hp, hpc⟩
      rw [hs1, hs2, hs3, hs4, hs5]
      simp

/-- C16: a reference that is not of the shape
`^data:<mime-type>;base64,<non-empty payload>$` makes `extractBase64Image` add
no image and append exactly one log entry, a warning whose message contains
the placemark name; the function returns normally on every input; a reference
of that shape gets a `success` entry and no warning. -/
theorem extractBase64Image_invalid (self : KMZExtractor) (dataUrl placemarkName : Str)
    (keepStructure : Bool) :
    (¬ IsInlineDataUrl dataUrl →
        (extractBase64Image self dataUrl placemarkName keepStructure).extractedImages
            = self.extractedImages
          ∧ (extractBase64Image self dataUrl placemarkName keepStructure).logs
            = self.logs ++ [LogEntry.mk Status.warning
                ("Format data URL tidak valid untuk placemark \"".toList ++ placemarkName
                  ++ "\"".toList)]
          ∧ placemarkName <:+: ("Format data URL tidak valid untuk placemark \"".toList
              ++ placemarkName ++ "\"".toList))
      ∧ (IsInlineDataUrl dataUrl →
          ∃ message, (extractBase64Image self dataUrl placemarkName keepStructure).logs
            = self.logs ++ [LogEntry.mk Status.success message]) := by
  constructor
  · intro hnot
    have hnone : matchDataUrl dataUrl = none := by
      cases hm : matchDataUrl dataUrl with
      | none => rfl
      | some found =>
        exact absurd ((isInlineDataUrl_iff dataUrl).2 (by rw [hm]; rfl)) hnot
    unfold extractBase64Image
    rw [hnone]
    exact ⟨rfl, rfl,
      ⟨"Format data URL tidak valid untuk placemark \"".toList, "\"".toList, rfl⟩⟩
  · rintro ⟨mime, payload, hu, hm, hmc, hp, hpc⟩
    unfold extractBase64Image
    rw [hu, matchDataUrl_eq mime payload hm hmc hp hpc]
    simp only [List.length_cons, List.length_nil, ne_eq, not_true_eq_false, if_false]
    exact ⟨_, rfl⟩


/-- C16 at `data:image/jp2;base64,QUJD` (a digit in the MIME type), which
gets the warning, and at `data:image/png;base64,QUJD`, which does not. -/
theorem extractBase64Image_invalid_witness :
    ((extractBase64Image KMZExtractor.new "data:image/jp2;base64,QUJD".toList "?-P".toList
          false).extractedImages = KMZExtractor.new.extractedImages
      ∧ (extractBase64Image KMZExtractor.new "data:image/jp2;base64,QUJD".toList "?-P".toList
          false).logs
        = KMZExtractor.new.logs ++ [LogEntry.mk Status.warning
            ("Format data URL tidak valid untuk placemark \"".toList ++ "?-P".toList
              ++ "\"".toList)]
      ∧ "?-P".toList <:+: ("Format data URL tidak valid untuk placemark \"".toList
          ++ "?-P".toList ++ "\"".toList))
    ∧ ∃ message, (extractBase64Image KMZExtractor.new "data:image/png;base64,QUJD".toList
          "?-P".toList false).logs
        = KMZExtractor.new.logs ++ [LogEntry.mk Status.success message] :=
  ⟨(extractBase64Image_invalid KMZExtractor.new "data:image/jp2;base64,QUJD".toList
      "?-P".toList false).1 (by rw [isInlineDataUrl_iff]; decide),
   (extractBase64Image_invalid KMZExtractor.new "data:image/png;base64,QUJD".toList
      "?-P".toList false).2 (by rw [isInlineDataUrl_iff]; decide)⟩
/-! ## The end-to-end scenario, idempotence, reuse of the extractor,
extensions (C17, C18, C19, C20) -/

/-- C17: for the archive with the entries `doc.kml` and `images/pole12.jpg`,
whose KML has the one placemark `?-Pole 12` with the description markup
`<img src="pole12.jpg">`, and the options `extractAllImages = false`,
`keepStructure = false`, the run returns with `totalPlacemarks = 1`,
`totalPhotos = 1` and exactly one extracted image, named `Pole 12.jpg`, whose
data is the content of `images/pole12.jpg`; the same holds when the
description is written as a CDATA section. -/
theorem pole_scenario :
    ((extractImagesFromKMZ poleHost KMZExtractor.new poleFile defaultOptions).1.toOption.map
        ExtractionResult.totalPlacemarks = some 1
      ∧ (extractImagesFromKMZ poleHost KMZExtractor.new poleFile defaultOptions).1.toOption.map
        ExtractionResult.totalPhotos = some 1
      ∧ (extractImagesFromKMZ poleHost KMZExtractor.new poleFile defaultOptions).2.extractedImages
        = [Image.mk "Pole 12.jpg".toList (fileEntry "images/pole12.jpg" "cG9sZQ==").base64 none
            (some "images/pole12.jpg".toList)])
    ∧ ((extractImagesFromKMZ poleCdataHost KMZExtractor.new poleFile
          defaultOptions).1.toOption.map ExtractionResult.totalPlacemarks = some 1
      ∧ (extractImagesFromKMZ poleCdataHost KMZExtractor.new poleFile
          defaultOptions).1.toOption.map ExtractionResult.totalPhotos = some 1
      ∧ (extractImagesFromKMZ poleCdataHost KMZExtractor.new poleFile
          defaultOptions).2.extractedImages
        = [Image.mk "Pole 12.jpg".toList (fileEntry "images/pole12.jpg" "cG9sZQ==").base64 none
            (some "images/pole12.jpg".toList)]) := by
  decide

theorem replaceUnsafe_safe (name : Str) : ∀ c ∈ replaceUnsafe name, isUnsafeChar c = false := by
  induction name with
  | nil => simp [replaceUnsafe]
  | cons d s ih =>
    intro c hc
    rw [replaceUnsafe] at hc
    cases hd : isUnsafeChar d with
    | true =>
      rw [hd, if_pos rfl] at hc
      simp only [List.mem_cons] at hc
      rcases hc with h1 | h1 | h1
      · rw [h1]; decide
      · rw [h1]; decide
      · exact ih c h1
    | false =>
      rw [hd] at hc
      simp only [Bool.false_eq_true, if_false, List.mem_cons] at hc
      rcases hc with h1 | h1
      · rw [h1]; exact hd
      · exact ih c h1

theorem replaceUnsafe_of_safe (name : Str) (hs : ∀ c ∈ name, isUnsafeChar c = false) :
    replaceUnsafe name = name := by
  induction name with
  | nil => rfl
  | cons d s ih =>
    rw [replaceUnsafe, hs d (by simp)]
    simp only [Bool.false_eq_true, if_false]
    rw [ih (fun c hc => hs c (List.mem_cons_of_mem _ hc))]

/-- C18: the substitution of the unsafe characters is idempotent, in the
words of the specification (`cleanSpec`) and as the code computes it
(`replaceUnsafe`); hence a filename generated from an already cleaned name is
the filename generated from the original name, for every extension and every
value of `keepStructure`, `true` in particular. -/
theorem replaceUnsafe_idempotent (name extension : Str) (keepStructure : Bool) :
    cleanSpec (cleanSpec name) = cleanSpec name
      ∧ replaceUnsafe (replaceUnsafe name) = replaceUnsafe name
      ∧ generateFileNameFromPlacemark (cleanSpec name) extension true
          = generateFileNameFromPlacemark name extension true
      ∧ generateFileNameFromPlacemark (cleanSpec name) extension keepStructure
          = generateFileNameFromPlacemark name extension keepStructure := by
  have hidem : replaceUnsafe (replaceUnsafe name) = replaceUnsafe name :=
    replaceUnsafe_of_safe _ (replaceUnsafe_safe name)
  have hspec : cleanSpec (cleanSpec name) = cleanSpec name := by
    rw [← replaceUnsafe_eq_cleanSpec, ← replaceUnsafe_eq_cleanSpec, hidem]
  exact ⟨hspec, hidem, by rw [generateFileName_unfold, generateFileName_unfold, hspec],
    by rw [generateFileName_unfold, generateFileName_unfold, hspec]⟩

theorem extractImagesFromKMZ_of_same_jszip (h : Host) (s1 s2 : KMZExtractor) (file : KmzFile)
    (options : Options) (hj : s1.jszip = s2.jszip) :
    (extractImagesFromKMZ h s1 file options).1 = (extractImagesFromKMZ h s2 file options).1
      ∧ (extractImagesFromKMZ h s1 file options).2.extractedImages
          = (extractImagesFromKMZ h s2 file options).2.extractedImages
      ∧ (extractImagesFromKMZ h s1 file options).2.logs
          = (extractImagesFromKMZ h s2 file options).2.logs
      ∧ (extractImagesFromKMZ h s1 file options).2.warnings
          = (extractImagesFromKMZ h s2 file options).2.warnings
      ∧ ((∃ r, (extractImagesFromKMZ h s1 file options).1 = Except.ok r) →
          (extractImagesFromKMZ h s1 file options).2
            = (extractImagesFromKMZ h s2 file options).2) := by
  cases hk : (kmlEntries h (loadAsync s1.jszip file)).getLast? with
  | none =>
    rw [extractImagesFromKMZ_eq_of_no_kml h s1 file options hk,
      extractImagesFromKMZ_eq_of_no_kml h s2 file options (hj ▸ hk)]
    refine ⟨rfl, rfl, rfl, rfl, ?_⟩
    rintro ⟨r, hr⟩
    cases hr
  | some k =>
    rw [extractImagesFromKMZ_eq_of_kml h s1 file options k hk,
      extractImagesFromKMZ_eq_of_kml h s2 file options k (hj ▸ hk), hj]
    exact ⟨rfl, rfl, rfl, rfl, fun _ => rfl⟩

/-- C19 does not hold on the code: the JSZip instance made by the constructor
is kept across runs and `loadAsync` adds each archive to the entries it
already holds.  A fresh extractor run on `new.kmz`, whose placemark `?-New`
refers to `secret.jpg`, finds no such file (0 photos, one warning); the same
run on an extractor used before on `old.kmz`, which held `secret.jpg`,
returns 1 photo: the picture of the earlier archive, named `New.jpg`. -/
theorem extractImagesFromKMZ_earlier_archive_leaks :
    ((extractImagesFromKMZ laterHost KMZExtractor.new laterFile defaultOptions).1.toOption.map
        ExtractionResult.totalPhotos = some 0
      ∧ (extractImagesFromKMZ laterHost KMZExtractor.new laterFile
          defaultOptions).2.extractedImages = []
      ∧ warningMessages (extractImagesFromKMZ laterHost KMZExtractor.new laterFile
          defaultOptions).2.logs
        = ["Tidak menemukan file \"secret.jpg\" dalam KMZ untuk placemark \"?-New\"".toList])
    ∧ ((extractImagesFromKMZ laterHost usedExtractor laterFile defaultOptions).1.toOption.map
        ExtractionResult.totalPhotos = some 1
      ∧ (extractImagesFromKMZ laterHost usedExtractor laterFile
          defaultOptions).2.extractedImages
        = [Image.mk "New.jpg".toList (fileEntry "secret.jpg" "c2VjcmV0").base64 none
            (some "secret.jpg".toList)]
      ∧ warningMessages (extractImagesFromKMZ laterHost usedExtractor laterFile
          defaultOptions).2.logs = []) := by
  decide

/-- C20 does not hold on the code for an entry whose file name has no `.`:
for the entry `images/README` and the placemark `P` the text taken as the
extension is the whole lower-cased path and the image is named
`P.images/readme`, also in a full run; for the entry `images/IMG.JPG` the
name is `P.jpg`, as claimed. -/
theorem extractFileFromKMZ_extension_of_dotless_entry :
    (extractFileFromKMZ readmeHost KMZExtractor.new readmeFile.files "images/README".toList
        "P".toList false).extractedImages.map Image.name = ["P.images/readme".toList]
    ∧ (extractImagesFromKMZ readmeHost KMZExtractor.new readmeFile
        defaultOptions).2.extractedImages.map Image.name = ["P.images/readme".toList]
    ∧ (extractFileFromKMZ readmeHost KMZExtractor.new [fileEntry "images/IMG.JPG" "QQ=="]
        "images/IMG.JPG".toList "P".toList false).extractedImages.map Image.name
      = ["P.jpg".toList] := by
  decide

/-! ## Unsafe characters in names (C21) -/

theorem dotted_safe (extension : Str) (he : IsSafeName extension) :
    IsSafeName (dotted extension) := by
  unfold dotted
  split
  · exact he
  · intro c hc
    rcases List.mem_cons.1 hc with h1 | h1
    · rw [h1]; decide
    · exact he c h1

theorem generateFileName_safe (placemarkName extension : Str) (keepStructure : Bool)
    (he : IsSafeName extension) :
    IsSafeName (generateFileNameFromPlacemark placemarkName extension keepStructure) := by
  rw [generateFileName_unfold, ← replaceUnsafe_eq_cleanSpec]
  intro c hc
  rcases List.mem_append.1 hc with h1 | h1
  · split at h1
    · exact replaceUnsafe_safe placemarkName c (List.mem_of_mem_drop h1)
    · exact replaceUnsafe_safe placemarkName c h1
  · exact dotted_safe extension he c h1

theorem mimeExtension_safe (mimeType : Str) : IsSafeName (mimeExtension mimeType) := by
  unfold mimeExtension
  repeat' split
  all_goals (unfold IsSafeName; decide)

theorem extractBase64Image_names_safe (self : KMZExtractor) (dataUrl placemarkName : Str)
    (keepStructure : Bool) (img : Image)
    (himg : img ∈ (extractBase64Image self dataUrl placemarkName keepStructure).extractedImages) :
    img ∈ self.extractedImages ∨ IsSafeName img.name := by
  unfold extractBase64Image at himg
  split at himg
  · exact Or.inl himg
  · split at himg
    · exact Or.inl himg
    · simp only [log_extractedImages, List.mem_append, List.mem_singleton] at himg
      rcases himg with h1 | h1
      · exact Or.inl h1
      · right
        rw [h1]
        exact generateFileName_safe _ _ _ (mimeExtension_safe _)

theorem extractFileFromKMZ_names_safe (h : Host) (self : KMZExtractor)
    (zipContent : List ZipEntry) (filePath placemarkName : Str) (keepStructure : Bool)
    (hext : IsSafeName (h.toLowerCase (pop (split '.' filePath)))) (img : Image)
    (himg : img ∈ (extractFileFromKMZ h self zipContent filePath placemarkName
      keepStructure).extractedImages) :
    img ∈ self.extractedImages ∨ IsSafeName img.name := by
  unfold extractFileFromKMZ at himg
  split at himg
  · exact Or.inl himg
  · simp only [] at himg
    split at himg
    · exact Or.inl himg
    · simp only [log_extractedImages, List.mem_append, List.mem_singleton] at himg
      rcases himg with h1 | h1
      · exact Or.inl h1
      · right
        rw [h1]
        apply generateFileName_safe
        intro c hc
        rcases List.mem_append.1 hc with h2 | h2
        · have hdot : c = '.' := by simpa using h2
          rw [hdot]; decide
        · exact hext c h2

/-- C21 does not hold on the code: in the run on the archive with the entries
`doc.kml` and `images/README`, whose placemark `?-P` refers to `README`, the
extracted image is named `P.images/readme`, which contains `/`; likewise the
entry `photos.v2/IMG`, whose final segment has no `.`, gives the name
`P.v2/img`.  The text taken as the extension is appended without the cleaning
applied to the placemark name. -/
theorem extractedImage_name_with_slash :
    (extractImagesFromKMZ readmeHost KMZExtractor.new readmeFile
        defaultOptions).2.extractedImages.map Image.name = ["P.images/readme".toList]
    ∧ (∃ img ∈ (extractImagesFromKMZ readmeHost KMZExtractor.new readmeFile
        defaultOptions).2.extractedImages, ∃ c ∈ img.name, isUnsafeChar c = true)
    ∧ (extractFileFromKMZ readmeHost KMZExtractor.new [fileEntry "photos.v2/IMG" "QQ=="]
        "photos.v2/IMG".toList "P".toList false).extractedImages.map Image.name
      = ["P.v2/img".toList]
    ∧ ¬ IsSafeName "P.images/readme".toList := by
  refine ⟨by decide, by decide, by decide, ?_⟩
  unfold IsSafeName
  decide

/-! ## The third disjunct of the matching test (C22) -/

theorem fileMatchesWithoutBasename_eq (r filename : Str) :
    fileMatchesWithoutBasename r filename = fileMatches r filename := by
  have hiff : fileMatchesWithoutBasename r filename = true ↔ fileMatches r filename = true := by
    rw [fileMatches_iff_exact_or_suffix]
    simp [fileMatchesWithoutBasename, endsWith]
  cases h1 : fileMatchesWithoutBasename r filename with
  | true => exact (hiff.1 h1).symm
  | false =>
    cases h2 : fileMatches r filename with
    | false => rfl
    | true => rw [hiff.2 h2] at h1; cases h1

/-- C22: the third disjunct of the test of line 166 is redundant: when the
normalized reference equals the last `/`-separated segment of the normalized
entry path, the normalized entry path equals the normalized reference or ends
with `/` followed by it; hence the loop run with the third disjunct deleted
selects the same entry, or none, for every file list and reference. -/
theorem third_disjunct_redundant (ref : Str) (files : List Str) :
    (∀ f : Str, normalizeFilePath ref = pop (split '/' (normalizeFilePath f)) →
        normalizeFilePath f = normalizeFilePath ref
          ∨ ("/".toList ++ normalizeFilePath ref) <:+ normalizeFilePath f)
      ∧ findFileWithoutBasename (normalizeFilePath ref) files
          = findFile (normalizeFilePath ref) files := by
  constructor
  · intro f hf
    rcases pop_split '/' (normalizeFilePath f) with h1 | h1
    · exact Or.inl (by rw [hf, h1])
    · rw [← hf] at h1
      exact Or.inr h1
  · induction files with
    | nil => rfl
    | cons g rest ih =>
      rw [findFileWithoutBasename, findFile, fileMatchesWithoutBasename_eq, ih]

/-- C22 at the reference `a.jpg` and the entries `notes.txt`, `images/a.jpg`:
the reference is the last segment of `images/a.jpg`, which ends with
`/a.jpg`, and both loops select that entry. -/
theorem third_disjunct_redundant_witness :
    (normalizeFilePath "images/a.jpg".toList = normalizeFilePath "a.jpg".toList
        ∨ ("/".toList ++ normalizeFilePath "a.jpg".toList)
            <:+ normalizeFilePath "images/a.jpg".toList)
      ∧ findFileWithoutBasename (normalizeFilePath "a.jpg".toList)
          ["notes.txt".toList, "images/a.jpg".toList]
        = findFile (normalizeFilePath "a.jpg".toList)
          ["notes.txt".toList, "images/a.jpg".toList]
      ∧ findFile (normalizeFilePath "a.jpg".toList) ["notes.txt".toList, "images/a.jpg".toList]
        = some "images/a.jpg".toList :=
  ⟨(third_disjunct_redundant "a.jpg".toList ["notes.txt".toList, "images/a.jpg".toList]).1
      "images/a.jpg".toList (by decide),
   (third_disjunct_redundant "a.jpg".toList ["notes.txt".toList, "images/a.jpg".toList]).2,
   by decide⟩

end KMZ
